import Mathlib

/-!
# Browser control pool of `CWebBrowser` (src/addon/addon.cpp)

A shallow embedding of the control pool kept by `CWebBrowser`:
`CreateControl`, `DestroyControl`, `InformDestroyed` and `MainShutdown`,
together with the three containers `m_browserClients` (active, keyed by
unique id), `m_browserClientsInactive` (parked, keyed by name) and
`m_browserClientsInDelete` (ids whose teardown has started).

Calls into collaborators whose code lives outside of addon.cpp (the browser
client object, the engine, the logger) are recorded, in order, in an event
list carried by the state.
-/

namespace WebBrowser

/-! ## Machine integers -/

/-- The value a 32 bit C++ `int` holds after an arithmetic result `n`
(two's complement wrap-around, as `std::atomic_int` arithmetic is defined). -/
def wrapInt32 (n : Int) : Int :=
  (n + 2147483648) % 4294967296 - 2147483648

/-! ## Containers -/

/-- `std::map::find` on an association list: the value stored under `k`. -/
def mapFind {κ α : Type} [DecidableEq κ] (k : κ) : List (κ × α) → Option α
  | [] => none
  | e :: m => if e.1 = k then some e.2 else mapFind k m

/-- `std::map::erase`: the map without its entry for `k`. -/
def mapErase {κ α : Type} [DecidableEq κ] (k : κ) (m : List (κ × α)) : List (κ × α) :=
  m.filter (fun e => decide (e.1 ≠ k))

/-- `std::map::emplace`: inserts `(k, v)` unless the key is already present,
in which case the map is left as it is. -/
def mapEmplace {κ α : Type} [DecidableEq κ] (k : κ) (v : α) (m : List (κ × α)) :
    List (κ × α) :=
  if (mapFind k m).isSome then m else m ++ [(k, v)]

/-- The assignment `m[k] = v` of `std::map::operator[]`: overwrites the value
of an existing entry, inserts a new entry otherwise. -/
def mapAssign {κ α : Type} [DecidableEq κ] (k : κ) (v : α) (m : List (κ × α)) :
    List (κ × α) :=
  if (mapFind k m).isSome then m.map (fun e => if e.1 = k then (k, v) else e)
  else m ++ [(k, v)]

/-- `std::set::insert`: adds `x` unless it is already a member. -/
def setInsert (x : Int) (s : List Int) : List Int :=
  if x ∈ s then s else s ++ [x]

/-- `std::set::erase` by value. -/
def setErase (x : Int) (s : List Int) : List Int :=
  s.filter (fun y => decide (y ≠ x))

/-- The set after `std::set::erase` was called for each value of `xs`, in order. -/
def eraseAll (xs : List Int) (s : List Int) : List Int :=
  xs.foldl (fun t x => setErase x t) s

/-! ## Data model -/

/-- Modelled from the spec: the class `CWebBrowserClient` (WebBrowserClient.h is
not part of the sources at hand). A control instance carries the unique id it
was given at construction (returned by both `GetUniqueId` and
`GetDataIdentifier`), its host-supplied name (`GetName`), and the start URL and
host handle it was constructed with. `address` is the identity of the C++
object: the number of client objects constructed before it. -/
structure CWebBrowserClient where
  address : Nat
  uniqueId : Int
  name : String
  startURL : String
  handle : Nat
  deriving DecidableEq, Repr

/-- Messages written with `kodi::Log` at error or fatal level. -/
inductive LogMessage where
  | clientsStillInUse
  | browsersNotDeleted
  | creationFailed
  | destroyWithoutHandle
  | destroyInvalidId
  deriving DecidableEq, Repr

/-- Calls that leave addon.cpp, in the order they are made. Debug and info log
lines and the 100 microsecond sleep of the shutdown loop are not recorded. -/
inductive Event where
  | LogError (msg : LogMessage)
  | LogFatal (msg : LogMessage)
  | SetActive (client : Nat)
  | SetInactive (client : Nat)
  | CloseComplete (client : Nat)
  | CefDoMessageLoopWork
  | CefShutdown
  deriving DecidableEq, Repr

/-- The members of `CWebBrowser` the pool operations read and write.
`heap` lists every `CWebBrowserClient` object constructed so far (position =
`address`), `events` the outgoing calls made so far. -/
structure CWebBrowser where
  m_started : Bool
  m_iUniqueClientId : Int
  m_browserClients : List (Int × CWebBrowserClient)
  m_browserClientsInactive : List (String × CWebBrowserClient)
  m_browserClientsInDelete : List Int
  heap : List CWebBrowserClient
  events : List Event
  deriving DecidableEq, Repr

/-- A started add-on instance with an empty pool, before any control was made. -/
def emptyPool : CWebBrowser :=
  { m_started := true
    m_iUniqueClientId := 0
    m_browserClients := []
    m_browserClientsInactive := []
    m_browserClientsInDelete := []
    heap := []
    events := [] }

/-! ## Operations -/

/-- `CWebBrowser::InformDestroyed`. -/
def InformDestroyed (self : CWebBrowser) (uniqueClientId : Int) : CWebBrowser :=
  { self with m_browserClientsInDelete := setErase uniqueClientId self.m_browserClientsInDelete }

/-- The tail of `CreateControl` (addon.cpp lines 372-375): the client is
registered in `m_browserClients` under its unique id and returned. -/
def registerControl (self : CWebBrowser) (browserClient : CWebBrowserClient) :
    Option CWebBrowserClient × CWebBrowser :=
  (some browserClient,
   { self with
     m_browserClients := mapEmplace browserClient.uniqueId browserClient self.m_browserClients })

/-- `CWebBrowser::CreateControl`. `createBrowserOk` is the result of
`CefBrowserHost::CreateBrowser`, consulted only when a new client is built.
The returned option is the returned pointer (`none` for `nullptr`). -/
def CreateControl (self : CWebBrowser) (sourceName startURL : String) (handle : Nat)
    (createBrowserOk : Bool) : Option CWebBrowserClient × CWebBrowser :=
  if self.m_started = false then (none, self)
  else
    match mapFind sourceName self.m_browserClientsInactive with
    | some browserClient =>
      registerControl
        { self with
          events := self.events ++ [Event.SetActive browserClient.address]
          m_browserClientsInactive := mapErase sourceName self.m_browserClientsInactive }
        browserClient
    | none =>
      match self.m_browserClients.find? (fun entry => decide (entry.2.name = sourceName)) with
      | some entry => (some entry.2, self)
      | none =>
        let browserClient : CWebBrowserClient :=
          { address := self.heap.length
            uniqueId := self.m_iUniqueClientId
            name := sourceName
            startURL := startURL
            handle := handle }
        let self1 : CWebBrowser :=
          { self with
            m_iUniqueClientId := wrapInt32 (self.m_iUniqueClientId + 1)
            heap := self.heap ++ [browserClient] }
        if createBrowserOk = false then
          (none, { self1 with events := self1.events ++ [Event.LogError LogMessage.creationFailed] })
        else registerControl self1 browserClient

/-- One call of `CefDoMessageLoopWork`: the engine runs and calls
`InformDestroyed` for each id of `destroyed`, in order. -/
def pumpMessageLoop (self : CWebBrowser) (destroyed : List Int) : CWebBrowser :=
  destroyed.foldl InformDestroyed { self with events := self.events ++ [Event.CefDoMessageLoopWork] }

/-- `CWebBrowser::DestroyControl`. `control` is the passed pointer (`none` for
`nullptr`). The test `itr == m_browserClients.end()` made after the erase is
read as "the lookup had found nothing". `destroyed` lists the ids the engine
reports destroyed during the `CefDoMessageLoopWork` call that ends the complete
path (line 407); the other paths do not pump. -/
def DestroyControl (self : CWebBrowser) (control : Option CWebBrowserClient) (complete : Bool)
    (destroyed : List Int) : Bool × CWebBrowser :=
  if self.m_started = false then (false, self)
  else
    match control with
    | none =>
      (false, { self with events := self.events ++ [Event.LogError LogMessage.destroyWithoutHandle] })
    | some browserClient =>
      let found := (mapFind browserClient.uniqueId self.m_browserClients).isSome
      let self1 : CWebBrowser :=
        { self with
          m_browserClients := mapErase browserClient.uniqueId self.m_browserClients
          events := self.events ++ [Event.SetInactive browserClient.address] }
      if complete then
        (true,
         pumpMessageLoop
           { self1 with
             m_browserClientsInactive := mapErase browserClient.name self1.m_browserClientsInactive
             m_browserClientsInDelete :=
               setInsert browserClient.uniqueId self1.m_browserClientsInDelete
             events := self1.events ++ [Event.CloseComplete browserClient.address] }
           destroyed)
      else if found = false then
        (false, { self1 with events := self1.events ++ [Event.LogError LogMessage.destroyInvalidId] })
      else
        (true,
         { self1 with
           m_browserClientsInactive :=
             mapAssign browserClient.name browserClient self1.m_browserClientsInactive })

/-- The wait loop of `MainShutdown` (lines 236-241):
`while (!m_browserClientsInDelete.empty() && tries-- > 0)`. `tries` is the value
of the counter before the test, `done` the number of pumps made so far and
`pump k` the ids the engine reports destroyed during pump number `k`. Returns
the state after the loop and the number of pumps made. -/
def waitForDelete (pump : Nat → List Int) : Nat → Nat → CWebBrowser → CWebBrowser × Nat
  | 0, done, self => (self, done)
  | tries + 1, done, self =>
    if self.m_browserClientsInDelete.isEmpty then (self, done)
    else waitForDelete pump tries (done + 1) (pumpMessageLoop self (pump done))

/-- `CWebBrowser::MainShutdown`. -/
def MainShutdown (self : CWebBrowser) (pump : Nat → List Int) : CWebBrowser :=
  if self.m_started = false then self
  else
    let self1 : CWebBrowser :=
      if self.m_browserClients.isEmpty = false ∨ self.m_browserClientsInactive.isEmpty = false then
        { self with events := self.events ++ [Event.LogFatal LogMessage.clientsStillInUse] }
      else self
    let waited := waitForDelete pump 1000 0 self1
    let self2 := pumpMessageLoop waited.1 (pump waited.2)
    let size := self2.m_browserClientsInDelete.length
    if size = 0 then { self2 with events := self2.events ++ [Event.CefShutdown] }
    else { self2 with events := self2.events ++ [Event.LogFatal LogMessage.browsersNotDeleted] }

/-! ## Call sequences -/

/-- One call made on the pool. A control is passed to `DestroyControl` by the
address of a client object (`none` for a null pointer); `destroyed` lists the
ids the engine reports destroyed during the pump that ends a complete release.
`Destroyed` is an `InformDestroyed` callback made at any other time. -/
inductive Call where
  | Create (sourceName startURL : String) (handle : Nat) (createBrowserOk : Bool)
  | Destroy (control : Option Nat) (complete : Bool) (destroyed : List Int)
  | Destroyed (uniqueClientId : Int)
  deriving DecidableEq, Repr

/-- The state after one call. A `Destroy` whose address names no constructed
client object is not a call the host can make and leaves the state as it is. -/
def applyCall (self : CWebBrowser) : Call → CWebBrowser
  | Call.Create sourceName startURL handle ok => (CreateControl self sourceName startURL handle ok).2
  | Call.Destroy none complete destroyed => (DestroyControl self none complete destroyed).2
  | Call.Destroy (some a) complete destroyed =>
    match self.heap[a]? with
    | some client => (DestroyControl self (some client) complete destroyed).2
    | none => self
  | Call.Destroyed uniqueClientId => InformDestroyed self uniqueClientId

/-- The state after a sequence of calls, made in order. -/
def runCalls (self : CWebBrowser) (calls : List Call) : CWebBrowser :=
  calls.foldl applyCall self

/-! ## Invariants, scenarios and auxiliary functions -/

/-- The instances the pool holds: the values of the active map followed by
the values of the inactive map. -/
def pooled (s : CWebBrowser) : List CWebBrowserClient :=
  s.m_browserClients.map Prod.snd ++ s.m_browserClientsInactive.map Prod.snd

/-- Name uniqueness: no name is carried by more than one instance across the
active and the inactive map taken together. -/
def NameUnique (s : CWebBrowser) : Prop :=
  ∀ n : String, ((pooled s).map CWebBrowserClient.name).count n ≤ 1

/-- Id disjointness: no unique id occurs in two of the three collections
(keys of active, ids of the parked instances, pending-delete set). -/
def IdDisjoint (s : CWebBrowser) : Prop :=
  ∀ id : Int,
    ¬ (id ∈ s.m_browserClients.map Prod.fst ∧
        id ∈ s.m_browserClientsInactive.map (fun e => e.2.uniqueId)) ∧
    ¬ (id ∈ s.m_browserClients.map Prod.fst ∧ id ∈ s.m_browserClientsInDelete) ∧
    ¬ (id ∈ s.m_browserClientsInactive.map (fun e => e.2.uniqueId) ∧
        id ∈ s.m_browserClientsInDelete)

/-- Facts that hold in every state the calls can produce, however many client
objects were constructed. -/
structure Sound (s : CWebBrowser) : Prop where
  started : s.m_started = true
  counter : s.m_iUniqueClientId = wrapInt32 s.heap.length
  heapIds : ∀ (i : Nat) (c : CWebBrowserClient), s.heap[i]? = some c →
    c.address = i ∧ c.uniqueId = wrapInt32 i
  activeKey : ∀ e ∈ s.m_browserClients, e.1 = e.2.uniqueId ∧ e.2 ∈ s.heap
  inactiveKey : ∀ e ∈ s.m_browserClientsInactive, e.1 = e.2.name ∧ e.2 ∈ s.heap
  deleteIds : ∀ id ∈ s.m_browserClientsInDelete, ∃ c ∈ s.heap, c.uniqueId = id
  closed : ∀ a : Nat, Event.CloseComplete a ∈ s.events → a < s.heap.length
  activeNodup : (s.m_browserClients.map Prod.fst).Nodup
  inactiveNodup : (s.m_browserClientsInactive.map Prod.fst).Nodup
  deleteNodup : s.m_browserClientsInDelete.Nodup

/-- Facts that hold as long as no unique id has been handed out twice. -/
structure Separated (s : CWebBrowser) : Prop where
  activeNames : (s.m_browserClients.map (fun e => e.2.name)).Nodup
  names : ∀ a ∈ s.m_browserClients, ∀ i ∈ s.m_browserClientsInactive, a.2.name ≠ i.2.name
  activeInactive : ∀ a ∈ s.m_browserClients, ∀ i ∈ s.m_browserClientsInactive,
    a.1 ≠ i.2.uniqueId
  activeDelete : ∀ a ∈ s.m_browserClients, a.1 ∉ s.m_browserClientsInDelete
  inactiveDelete : ∀ i ∈ s.m_browserClientsInactive, i.2.uniqueId ∉ s.m_browserClientsInDelete
  notClosed : ∀ c ∈ pooled s, Event.CloseComplete c.address ∉ s.events

/-- The number of client objects up to which the ids handed out are pairwise
different: 2^32, the number of values of an `int`. -/
def idSpace : Nat := 4294967296

/-- The client object `CreateControl` constructs when the name is neither
parked nor active. -/
def newClient (s : CWebBrowser) (n u : String) (h : Nat) : CWebBrowserClient :=
  { address := s.heap.length
    uniqueId := s.m_iUniqueClientId
    name := n
    startURL := u
    handle := h }

/-- One round on the client object that will get address `a`: it is created
under the name "spare", released completely and reported destroyed. -/
def churn (a : Nat) : List Call :=
  [Call.Create "spare" "" 0 true, Call.Destroy (some a) true [], Call.Destroyed (wrapInt32 a)]

/-- The rounds for the addresses `base`, `base + 1`, ..., `base + n - 1`. -/
def churnCalls : Nat → Nat → List Call
  | _, 0 => []
  | base, n + 1 => churn base ++ churnCalls (base + 1) n

/-- What a state has in common with the state some rounds earlier. -/
structure Churned (s t : CWebBrowser) (n : Nat) : Prop where
  started : t.m_started = true
  counter : t.m_iUniqueClientId = wrapInt32 t.heap.length
  length : t.heap.length = s.heap.length + n
  active : t.m_browserClients = s.m_browserClients
  inactive : t.m_browserClientsInactive = s.m_browserClientsInactive
  delete : t.m_browserClientsInDelete = s.m_browserClientsInDelete
  older : ∀ i : Nat, i < s.heap.length → t.heap[i]? = s.heap[i]?

/-- The calls that bring a reused id into the pool: the first control is
released completely and never reported destroyed, 2^32 - 1 spare controls come
and go, and the control created next is given the id 0 again. -/
def reusedIdCalls : List Call :=
  [Call.Create "a" "x" 0 true, Call.Destroy (some 0) true []] ++ churnCalls 1 4294967295 ++
    [Call.Create "c" "y" 0 true]

/-- The calls made once the id 0 is about to be handed out again while the
first control, which has id 0, is still active: `base` is the number of client
objects constructed so far. -/
def duplicateNameTail (base : Nat) : List Call :=
  [Call.Create "c" "y" 0 true, Call.Destroy (some base) false [], Call.Create "c" "y" 0 true,
   Call.Create "a" "z" 0 true, Call.Destroy (some 0) false []]

/-- The calls after which the id counter is back at 0 while the first control
"a", which has id 0, is still active: 2^32 - 1 spare controls come and go. -/
def wrappedCalls : List Call :=
  [Call.Create "a" "x" 0 true] ++ churnCalls 1 4294967295

/-- The first control made by `wrappedCalls`. -/
def firstClient : CWebBrowserClient :=
  { address := 0, uniqueId := 0, name := "a", startURL := "x", handle := 0 }

/-- The pool after `wrappedCalls`. -/
structure Wrapped (t : CWebBrowser) : Prop where
  started : t.m_started = true
  counter : t.m_iUniqueClientId = 0
  active : t.m_browserClients = [(0, firstClient)]
  inactive : t.m_browserClientsInactive = []
  delete : t.m_browserClientsInDelete = []
  length : t.heap.length = 4294967296
  first : t.heap[0]? = some firstClient

/-- The calls that bring two controls of one name into the pool: after
`wrappedCalls` the control "c" created next is given the id 0 again, and
releasing and reactivating it replaces the first control in the active map;
"a" is then created anew, and a release of the first control parks it beside
its namesake. -/
def duplicateNameCalls : List Call :=
  wrappedCalls ++ duplicateNameTail 4294967296

/-- The pool after `[CreateControl "a", DestroyControl (it, false)]`: the one
control made so far is parked in the inactive map. -/
def parkedPool : CWebBrowser :=
  runCalls emptyPool [Call.Create "a" "x" 1 true, Call.Destroy (some 0) false []]

/-- The control parked in `parkedPool`. -/
def parkedClient : CWebBrowserClient :=
  { address := 0, uniqueId := 0, name := "a", startURL := "x", handle := 1 }

/-- The pool after `[CreateControl "tab1" "http://x"]`, and the control it made. -/
def tabPool : CWebBrowser :=
  runCalls emptyPool [Call.Create "tab1" "http://x" 1 true]

/-- The control made in `tabPool`. -/
def tabClient : CWebBrowserClient :=
  { address := 0, uniqueId := 0, name := "tab1", startURL := "http://x", handle := 1 }

/-- The outgoing calls made between the state `before` and the later state
`after`. -/
def emitted (before after : CWebBrowser) : List Event :=
  after.events.drop before.events.length

/-- The part of `MainShutdown` before its wait loop (lines 230-233). -/
def shutdownStart (s : CWebBrowser) : CWebBrowser :=
  if s.m_browserClients.isEmpty = false ∨ s.m_browserClientsInactive.isEmpty = false then
    { s with events := s.events ++ [Event.LogFatal LogMessage.clientsStillInUse] }
  else s

/-- The part of `MainShutdown` after its last pump (lines 247-252). -/
def shutdownEnd (s : CWebBrowser) : CWebBrowser :=
  if s.m_browserClientsInDelete.length = 0 then
    { s with events := s.events ++ [Event.CefShutdown] }
  else { s with events := s.events ++ [Event.LogFatal LogMessage.browsersNotDeleted] }

/-- The pool after `[CreateControl "a", DestroyControl (it, true)]`: the id 0
waits in pending-delete. -/
def stuckPool : CWebBrowser :=
  runCalls emptyPool [Call.Create "a" "x" 1 true, Call.Destroy (some 0) true []]

/-- An engine that reports no control destroyed, however often it is pumped. -/
def idlePump : Nat → List Int :=
  fun _ => []

/-- The pool after `[CreateControl "a", DestroyControl (it, true),
CreateControl "a", DestroyControl (the second one, false)]`: the first control
waits in pending-delete, its namesake is parked. -/
def namesakePool : CWebBrowser :=
  runCalls emptyPool
    [Call.Create "a" "x" 1 true, Call.Destroy (some 0) true [], Call.Create "a" "y" 2 true,
     Call.Destroy (some 1) false []]

/-- The control of `namesakePool` that was released completely. -/
def releasedClient : CWebBrowserClient :=
  { address := 0, uniqueId := 0, name := "a", startURL := "x", handle := 1 }

/-- How often `CloseComplete` was called on the client object at address `a`. -/
def closeCount (s : CWebBrowser) (a : Nat) : Nat :=
  s.events.count (Event.CloseComplete a)

/-- Whether a call is a complete release of a constructed instance that is, at
the time of the call, neither in active nor in inactive. -/
def releasesUnpooled (s : CWebBrowser) : Call → Bool
  | Call.Destroy (some a) true _ =>
    match s.heap[a]? with
    | some c => decide (c ∉ pooled s)
    | none => false
  | _ => false

/-- Whether, in a sequence of calls made from state `s` on, every complete
release is made on an instance that is in active or in inactive at that time. -/
def releasesPooled : CWebBrowser → List Call → Bool
  | _, [] => true
  | s, call :: rest => !releasesUnpooled s call && releasesPooled (applyCall s call) rest

/-! ## Shutdown, ids and scenarios of the later sections -/

/-- The state after `count` pumps of the message loop, the first of them being
pump number `first`. -/
def pumpedFrom (pump : Nat → List Int) : Nat → Nat → CWebBrowser → CWebBrowser
  | 0, _, s => s
  | count + 1, first, s => pumpedFrom pump count (first + 1) (pumpMessageLoop s (pump first))

/-- The pool after two controls were created and both released completely:
the ids 0 and 1 wait in pending-delete, active and inactive are empty. -/
def drainPool : CWebBrowser :=
  runCalls emptyPool
    [Call.Create "a" "x" 1 true, Call.Create "b" "y" 2 true, Call.Destroy (some 0) true [],
     Call.Destroy (some 1) true []]

/-- An engine that reports id 0 destroyed during its first pump and id 1 during
its fourth. -/
def twoStepPump : Nat → List Int :=
  fun k => if k = 0 then [0] else if k = 3 then [1] else []

/-- The calls after which 2^31 client objects have been constructed while the
first control "a" is still active: 2^31 - 1 spare controls come and go. -/
def halfWrappedCalls : List Call :=
  [Call.Create "a" "x" 0 true] ++ churnCalls 1 2147483647

/-! ## Exception report: data and function (src/addon/interface/JSException.cpp) -/

/-- An argument handed to `StringUtils::Format`. -/
inductive FormatArg where
  | text (s : String)
  | number (n : Int)
  deriving DecidableEq, Repr

/-- One entry of the frame list (argument 4 of the process message): function
name, line, column and source name, in the order they are read. -/
structure StackFrame where
  functionName : String
  lineNumber : Int
  columnNumber : Int
  sourceName : String
  deriving DecidableEq, Repr

/-- The argument list of the process message `ReportJSException` decodes. -/
structure ExceptionMessage where
  identifier : Int
  excMessage : String
  sourceLine : String
  scriptResourceName : String
  frames : List StackFrame
  deriving DecidableEq, Repr

/-- The text built before the frame loop (lines 21 and 31-34): the intro
(string 30044), the message, source-line and resource sections and the stack
header (string 30048). `localized` stands for `kodi::GetLocalizedString` and
`format` for `StringUtils::Format`; neither is part of the sources at hand. -/
def reportPrefix (localized : Nat → String) (format : String → List FormatArg → String)
    (message : ExceptionMessage) : String :=
  localized 30044 ++ format (localized 30045) [FormatArg.text message.excMessage] ++
    format (localized 30046) [FormatArg.text message.sourceLine] ++
    format (localized 30047) [FormatArg.text message.scriptResourceName] ++ localized 30048

/-- The line added for one frame (line 46): the frame template (string 30049)
applied to line, column, function name and source name. -/
def frameLine (localized : Nat → String) (format : String → List FormatArg → String)
    (frame : StackFrame) : String :=
  format (localized 30049)
    [FormatArg.number frame.lineNumber, FormatArg.number frame.columnNumber,
     FormatArg.text frame.functionName, FormatArg.text frame.sourceName]

/-- The frame loop (lines 37-47) with `rounds` iterations left, `i` the loop
variable and `text` the text so far. `none` stands for reading a frame that the
list does not have. -/
def appendFrames (localized : Nat → String) (format : String → List FormatArg → String)
    (frames : List StackFrame) : Nat → Nat → String → Option String
  | 0, _, text => some text
  | rounds + 1, i, text =>
    match frames[i]? with
    | some frame =>
      appendFrames localized format frames rounds (i + 1)
        (text ++ frameLine localized format frame)
    | none => none

/-- `JSException::ReportJSException`: the header and the text handed to the
text viewer. The loop runs while `i < static_cast<int>(argFrames->GetSize())`,
so the number of iterations is the size converted to `int`, or none if that is
negative. -/
def ReportJSException (localized : Nat → String) (format : String → List FormatArg → String)
    (message : ExceptionMessage) : Option (String × String) :=
  (appendFrames localized format message.frames
      (wrapInt32 message.frames.length).toNat 0
      (reportPrefix localized format message)).map
    (fun text => (localized 30043, text))

/-- Localized strings for the examples: every string is "x". -/
def plainStrings : Nat → String :=
  fun _ => "x"

/-- A formatter for the examples: the result is the template itself. -/
def plainFormat : String → List FormatArg → String :=
  fun template _ => template

/-- A frame for the examples. -/
def sampleFrame : StackFrame :=
  { functionName := "f", lineNumber := 3, columnNumber := 7, sourceName := "a.js" }

/-- An exception message with two frames. -/
def shortStack : ExceptionMessage :=
  { identifier := 1, excMessage := "boom", sourceLine := "f()", scriptResourceName := "a.js",
    frames := [sampleFrame, { sampleFrame with functionName := "g", lineNumber := 9 }] }

/-- An exception message with 2^31 frames. -/
def deepStack : ExceptionMessage :=
  { identifier := 1, excMessage := "boom", sourceLine := "f()", scriptResourceName := "a.js",
    frames := List.replicate 2147483648 sampleFrame }

/-! ## Cookie visitor: data and functions (src/addon/Cookies/CookieHandler.cpp) -/

/-- The fields of a `CefCookie` the cookie dialog reads, as the strings
`CefString(...).ToString()` yields. -/
structure CefCookie where
  name : String
  value : String
  domain : String
  path : String
  deriving DecidableEq, Repr

/-- The members of `CCookieVisitor`. -/
structure CCookieVisitor where
  m_delete : Bool
  m_deleteName : String
  m_deleteDomain : String
  m_deleteContent : String
  deriving DecidableEq, Repr

/-- The constructor `CCookieVisitor(cookieHandler, deleteThis)` (lines 58-68);
`none` stands for the default `nullptr`. -/
def CCookieVisitor.ofCookie : Option CefCookie → CCookieVisitor
  | none => { m_delete := false, m_deleteName := "", m_deleteDomain := "", m_deleteContent := "" }
  | some deleteThis =>
    { m_delete := true
      m_deleteName := deleteThis.name
      m_deleteDomain := deleteThis.domain
      m_deleteContent := deleteThis.value }

/-- The constructor `CCookieVisitor(cookieHandler, domain)` (lines 70-75). -/
def CCookieVisitor.ofDomain (domain : String) : CCookieVisitor :=
  { m_delete := true, m_deleteName := "", m_deleteDomain := domain, m_deleteContent := "" }

/-- What one call of `Visit` yields: the returned value, the out-parameter
`deleteCookie` and the item list `m_items` of the handler afterwards. -/
structure Visited where
  result : Bool
  deleteCookie : Bool
  items : List CefCookie
  deriving DecidableEq, Repr

/-- The condition of the `if` in `Visit` (lines 81-84). -/
def CCookieVisitor.selects (self : CCookieVisitor) (cookie : CefCookie) : Bool :=
  self.m_delete &&
    (if self.m_deleteName ≠ "" then decide (self.m_deleteName = cookie.name) else true) &&
    (if self.m_deleteDomain ≠ "" then decide (self.m_deleteDomain = cookie.domain) else true) &&
    (if self.m_deleteContent ≠ "" then decide (self.m_deleteContent = cookie.value) else true)

/-- `CCookieVisitor::Visit` (lines 79-94); `items` is `m_items` of the handler,
to which `AddCookie` appends. -/
def CCookieVisitor.Visit (self : CCookieVisitor) (items : List CefCookie) (cookie : CefCookie) :
    Visited :=
  if self.selects cookie = true then
    { result := true, deleteCookie := true, items := items }
  else
    { result := true, deleteCookie := false, items := items ++ [cookie] }

/-- The enumeration `VisitAllCookies` drives: `Visit` is called for the cookies
in order for as long as it returns true. Yields the `deleteCookie` flags, in
order, and the item list afterwards. -/
def visitAll (visitor : CCookieVisitor) : List CefCookie → List CefCookie →
    List Bool × List CefCookie
  | items, [] => ([], items)
  | items, cookie :: rest =>
    let visited := visitor.Visit items cookie
    if visited.result then
      ((visitAll visitor visited.items rest).1.cons visited.deleteCookie,
       (visitAll visitor visited.items rest).2)
    else ([visited.deleteCookie], visited.items)

/-- A filter is empty or equal to the cookie's field. -/
def filterAccepts (filter field : String) : Prop :=
  filter = "" ∨ filter = field

/-- The pool after two controls were created and the first one was released
completely: the id 0 waits in pending-delete, the second control is active. -/
def onePendingPool : CWebBrowser :=
  runCalls emptyPool
    [Call.Create "a" "x" 1 true, Call.Create "b" "y" 2 true, Call.Destroy (some 0) true []]

/-- The control that is still active in `onePendingPool`. -/
def secondClient : CWebBrowserClient :=
  { address := 1, uniqueId := 1, name := "b", startURL := "y", handle := 2 }

/-! ## Container facts -/

section Containers

variable {κ α : Type} [DecidableEq κ]

theorem mapFind_eq_none_iff (k : κ) (m : List (κ × α)) :
    mapFind k m = none ↔ ∀ e ∈ m, e.1 ≠ k := by
  induction m with
  | nil => simp [mapFind]
  | cons e m ih =>
    by_cases h : e.1 = k
    · simp [mapFind, h]
    · simp [mapFind, h, ih]

theorem mapFind_some_mem {k : κ} {v : α} {m : List (κ × α)} (h : mapFind k m = some v) :
    (k, v) ∈ m := by
  induction m with
  | nil => simp [mapFind] at h
  | cons e m ih =>
    by_cases hk : e.1 = k
    · simp [mapFind, hk] at h
      simp [← h, ← hk]
    · simp [mapFind, hk] at h
      exact List.mem_cons_of_mem _ (ih h)

theorem mapFind_isSome_of_mem {k : κ} {v : α} {m : List (κ × α)} (h : (k, v) ∈ m) :
    (mapFind k m).isSome = true := by
  cases hf : mapFind k m with
  | some w => rfl
  | none => exact absurd rfl ((mapFind_eq_none_iff k m).1 hf _ h)

theorem mem_mapErase {k : κ} {m : List (κ × α)} {e : κ × α} :
    e ∈ mapErase k m ↔ e ∈ m ∧ e.1 ≠ k := by
  simp [mapErase, List.mem_filter]

theorem mapErase_sublist (k : κ) (m : List (κ × α)) : (mapErase k m).Sublist m :=
  List.filter_sublist m

theorem mapFind_mapErase_self (k : κ) (m : List (κ × α)) : mapFind k (mapErase k m) = none :=
  (mapFind_eq_none_iff k _).2 (fun _ he => (mem_mapErase.1 he).2)

theorem mapFind_mapErase_ne {k j : κ} (h : j ≠ k) (m : List (κ × α)) :
    mapFind j (mapErase k m) = mapFind j m := by
  induction m with
  | nil => rfl
  | cons e m ih =>
    obtain ⟨a, b⟩ := e
    have ih1 : mapFind j (List.filter (fun e => !decide (e.1 = k)) m) = mapFind j m := by
      simpa [mapErase] using ih
    by_cases hk : a = k
    · subst hk
      have hj : ¬ a = j := fun hj => h hj.symm
      simp [mapErase, mapFind, hj, ih1]
    · by_cases hj : a = j
      · subst hj
        simp [mapErase, mapFind, hk]
      · simp [mapErase, mapFind, hk, hj, ih1]

theorem mapErase_eq_self {k : κ} {m : List (κ × α)} (h : mapFind k m = none) :
    mapErase k m = m := by
  rw [mapErase, List.filter_eq_self]
  intro e he
  simpa using (mapFind_eq_none_iff k m).1 h e he

theorem mapFind_append (k : κ) (m n : List (κ × α)) :
    mapFind k (m ++ n) = match mapFind k m with
      | some v => some v
      | none => mapFind k n := by
  induction m with
  | nil => simp [mapFind]
  | cons e m ih =>
    by_cases hk : e.1 = k
    · simp [mapFind, hk]
    · simpa [mapFind, hk] using ih

theorem mapEmplace_of_none {k : κ} {m : List (κ × α)} (v : α) (h : mapFind k m = none) :
    mapEmplace k v m = m ++ [(k, v)] := by
  simp [mapEmplace, h]

theorem mem_mapEmplace {k : κ} {v : α} {m : List (κ × α)} {e : κ × α}
    (h : e ∈ mapEmplace k v m) : e ∈ m ∨ e = (k, v) := by
  unfold mapEmplace at h
  split at h
  · exact Or.inl h
  · simpa using h

theorem mapEmplace_keys_nodup {k : κ} {v : α} {m : List (κ × α)}
    (h : (m.map Prod.fst).Nodup) : ((mapEmplace k v m).map Prod.fst).Nodup := by
  unfold mapEmplace
  split
  · exact h
  · rename_i hf
    have hn : mapFind k m = none := by simpa using hf
    have hk : k ∉ m.map Prod.fst := by
      intro hmem
      obtain ⟨e, he, hek⟩ := List.mem_map.1 hmem
      exact (mapFind_eq_none_iff k m).1 hn e he hek
    rw [List.map_append, List.nodup_append]
    refine ⟨h, by simp, ?_⟩
    intro a ha hb
    simp at hb
    exact hk (hb ▸ ha)

theorem mapErase_keys_nodup {k : κ} {m : List (κ × α)}
    (h : (m.map Prod.fst).Nodup) : ((mapErase k m).map Prod.fst).Nodup :=
  h.sublist ((mapErase_sublist k m).map Prod.fst)

theorem mapAssign_of_none {k : κ} {m : List (κ × α)} (v : α) (h : mapFind k m = none) :
    mapAssign k v m = m ++ [(k, v)] := by
  simp [mapAssign, h]

theorem mem_mapAssign {k : κ} {v : α} {m : List (κ × α)} {e : κ × α}
    (h : e ∈ mapAssign k v m) : e ∈ m ∨ e = (k, v) := by
  unfold mapAssign at h
  split at h
  · obtain ⟨a, ha, rfl⟩ := List.mem_map.1 h
    by_cases hk : a.1 = k
    · simp [hk]
    · simp [hk, ha]
  · simpa using h

theorem mapAssign_keys (k : κ) (v : α) (m : List (κ × α)) :
    (mapAssign k v m).map Prod.fst =
      if (mapFind k m).isSome then m.map Prod.fst else m.map Prod.fst ++ [k] := by
  unfold mapAssign
  split
  · rw [List.map_map]
    apply List.map_congr_left
    intro a _
    by_cases hk : a.1 = k <;> simp [hk]
  · simp

theorem mapAssign_keys_nodup {k : κ} {v : α} {m : List (κ × α)}
    (h : (m.map Prod.fst).Nodup) : ((mapAssign k v m).map Prod.fst).Nodup := by
  rw [mapAssign_keys]
  split
  · exact h
  · rename_i hf
    have hn : mapFind k m = none := by simpa using hf
    have hk : k ∉ m.map Prod.fst := by
      intro hmem
      obtain ⟨e, he, hek⟩ := List.mem_map.1 hmem
      exact (mapFind_eq_none_iff k m).1 hn e he hek
    rw [List.nodup_append]
    refine ⟨h, by simp, ?_⟩
    intro a ha hb
    simp at hb
    exact hk (hb ▸ ha)

theorem mapFind_mapAssign_self (k : κ) (v : α) (m : List (κ × α)) :
    mapFind k (mapAssign k v m) = some v := by
  unfold mapAssign
  split
  · rename_i hf
    induction m with
    | nil => simp [mapFind] at hf
    | cons e m ih =>
      by_cases hk : e.1 = k
      · simp [mapFind, hk]
      · simp [mapFind, hk] at hf ⊢
        exact ih hf
  · rename_i hf
    have hn : mapFind k m = none := by simpa using hf
    rw [mapFind_append, hn]
    simp [mapFind]

theorem mapFind_map_replace {k j : κ} (h : j ≠ k) (v : α) (m : List (κ × α)) :
    mapFind j (m.map (fun e => if e.1 = k then (k, v) else e)) = mapFind j m := by
  induction m with
  | nil => rfl
  | cons e m ih =>
    obtain ⟨a, b⟩ := e
    have hkj : ¬ k = j := fun hkj => h hkj.symm
    by_cases hk : a = k
    · subst hk
      simp [mapFind, hkj, ih]
    · by_cases hj : a = j
      · subst hj
        simp [mapFind, hk]
      · simp [mapFind, hk, hj, ih]

theorem mapFind_mapAssign_ne {k j : κ} (h : j ≠ k) (v : α) (m : List (κ × α)) :
    mapFind j (mapAssign k v m) = mapFind j m := by
  unfold mapAssign
  split
  · exact mapFind_map_replace h v m
  · rw [mapFind_append]
    have hkj : ¬ k = j := fun hkj => h hkj.symm
    cases mapFind j m <;> simp [mapFind, hkj]

end Containers

theorem mem_setInsert {x y : Int} {s : List Int} : y ∈ setInsert x s ↔ y ∈ s ∨ y = x := by
  unfold setInsert
  split
  · rename_i h
    constructor
    · exact Or.inl
    · rintro (h1 | rfl)
      · exact h1
      · exact h
  · simp

theorem setInsert_nodup {x : Int} {s : List Int} (h : s.Nodup) : (setInsert x s).Nodup := by
  unfold setInsert
  split
  · exact h
  · rename_i hx
    rw [List.nodup_append]
    refine ⟨h, by simp, ?_⟩
    intro a ha hb
    simp at hb
    exact hx (hb ▸ ha)

theorem mem_setErase {x y : Int} {s : List Int} : y ∈ setErase x s ↔ y ∈ s ∧ y ≠ x := by
  simp [setErase, List.mem_filter]

theorem setErase_sublist (x : Int) (s : List Int) : (setErase x s).Sublist s :=
  List.filter_sublist s

theorem mem_eraseAll (xs : List Int) : ∀ (s : List Int) (y : Int),
    y ∈ eraseAll xs s ↔ y ∈ s ∧ y ∉ xs := by
  induction xs with
  | nil => intro s y; simp [eraseAll]
  | cons x xs ih =>
    intro s y
    have := ih (setErase x s) y
    simp only [eraseAll, List.foldl_cons] at this ⊢
    rw [this, mem_setErase]
    simp only [List.mem_cons, not_or]
    tauto

theorem eraseAll_sublist (xs : List Int) : ∀ s : List Int, (eraseAll xs s).Sublist s := by
  induction xs with
  | nil => intro s; exact List.Sublist.refl s
  | cons x xs ih =>
    intro s
    have := ih (setErase x s)
    simp only [eraseAll, List.foldl_cons] at this ⊢
    exact this.trans (setErase_sublist x s)

theorem foldl_InformDestroyed_eq (ids : List Int) : ∀ s : CWebBrowser,
    ids.foldl InformDestroyed s =
      { s with m_browserClientsInDelete := eraseAll ids s.m_browserClientsInDelete } := by
  induction ids with
  | nil => intro s; rfl
  | cons id ids ih =>
    intro s
    rw [List.foldl_cons, ih]
    rfl

theorem pumpMessageLoop_eq (s : CWebBrowser) (ids : List Int) :
    pumpMessageLoop s ids =
      { s with
        m_browserClientsInDelete := eraseAll ids s.m_browserClientsInDelete
        events := s.events ++ [Event.CefDoMessageLoopWork] } := by
  unfold pumpMessageLoop
  rw [foldl_InformDestroyed_eq]

/-! ## Pool invariants -/

theorem wrapInt32_inj {i j : Nat} (hi : i < idSpace) (hj : j < idSpace)
    (h : wrapInt32 i = wrapInt32 j) : i = j := by
  unfold wrapInt32 at h
  unfold idSpace at hi hj
  omega

theorem wrapInt32_succ (n : Nat) : wrapInt32 (wrapInt32 n + 1) = wrapInt32 ((n + 1 : Nat) : Int) := by
  unfold wrapInt32
  push_cast
  omega

theorem Sound.mem_heap {s : CWebBrowser} (hs : Sound s) {c : CWebBrowserClient}
    (hc : c ∈ s.heap) :
    s.heap[c.address]? = some c ∧ c.uniqueId = wrapInt32 c.address ∧
      c.address < s.heap.length := by
  obtain ⟨i, hi⟩ := List.mem_iff_getElem?.1 hc
  obtain ⟨ha, hu⟩ := hs.heapIds i c hi
  have hlt : i < s.heap.length := by
    by_contra hge
    rw [List.getElem?_eq_none (Nat.le_of_not_lt hge)] at hi
    exact Option.noConfusion hi
  subst ha
  exact ⟨hi, hu, hlt⟩

/-- Below the id space two constructed clients with the same unique id are the
same object. -/
theorem Sound.eq_of_uniqueId {s : CWebBrowser} (hs : Sound s) (hb : s.heap.length ≤ idSpace)
    {c d : CWebBrowserClient} (hc : c ∈ s.heap) (hd : d ∈ s.heap)
    (h : c.uniqueId = d.uniqueId) : c = d := by
  obtain ⟨hgc, huc, hlc⟩ := hs.mem_heap hc
  obtain ⟨hgd, hud, hld⟩ := hs.mem_heap hd
  have : c.address = d.address :=
    wrapInt32_inj (by omega) (by omega) (by rw [← huc, ← hud, h])
  rw [this, hgd] at hgc
  exact (Option.some.inj hgc).symm

theorem sound_emptyPool : Sound emptyPool := by
  constructor <;> simp [emptyPool, wrapInt32]

theorem separated_emptyPool : Separated emptyPool := by
  constructor <;> simp [emptyPool, pooled]

theorem mem_pooled {s : CWebBrowser} {c : CWebBrowserClient} :
    c ∈ pooled s ↔
      (∃ e ∈ s.m_browserClients, e.2 = c) ∨ (∃ e ∈ s.m_browserClientsInactive, e.2 = c) := by
  simp [pooled]

/-! ## The branches of `CreateControl` -/

theorem CreateControl_reactivate {s : CWebBrowser} {n : String} {c : CWebBrowserClient}
    (hst : s.m_started = true) (hf : mapFind n s.m_browserClientsInactive = some c)
    (u : String) (h : Nat) (ok : Bool) :
    CreateControl s n u h ok =
      (some c,
       { s with
         events := s.events ++ [Event.SetActive c.address]
         m_browserClientsInactive := mapErase n s.m_browserClientsInactive
         m_browserClients := mapEmplace c.uniqueId c s.m_browserClients }) := by
  simp [CreateControl, hst, hf, registerControl]

theorem CreateControl_existing {s : CWebBrowser} {n : String} {e : Int × CWebBrowserClient}
    (hst : s.m_started = true) (hf : mapFind n s.m_browserClientsInactive = none)
    (he : s.m_browserClients.find? (fun entry => decide (entry.2.name = n)) = some e)
    (u : String) (h : Nat) (ok : Bool) :
    CreateControl s n u h ok = (some e.2, s) := by
  simp [CreateControl, hst, hf, he]

theorem CreateControl_failed {s : CWebBrowser} {n : String}
    (hst : s.m_started = true) (hf : mapFind n s.m_browserClientsInactive = none)
    (he : s.m_browserClients.find? (fun entry => decide (entry.2.name = n)) = none)
    (u : String) (h : Nat) :
    CreateControl s n u h false =
      (none,
       { s with
         m_iUniqueClientId := wrapInt32 (s.m_iUniqueClientId + 1)
         heap := s.heap ++ [newClient s n u h]
         events := s.events ++ [Event.LogError LogMessage.creationFailed] }) := by
  simp [CreateControl, hst, hf, he, newClient]

theorem CreateControl_new {s : CWebBrowser} {n : String}
    (hst : s.m_started = true) (hf : mapFind n s.m_browserClientsInactive = none)
    (he : s.m_browserClients.find? (fun entry => decide (entry.2.name = n)) = none)
    (u : String) (h : Nat) :
    CreateControl s n u h true =
      (some (newClient s n u h),
       { s with
         m_iUniqueClientId := wrapInt32 (s.m_iUniqueClientId + 1)
         heap := s.heap ++ [newClient s n u h]
         m_browserClients :=
           mapEmplace s.m_iUniqueClientId (newClient s n u h) s.m_browserClients }) := by
  simp [CreateControl, hst, hf, he, newClient, registerControl]

theorem heapIds_append {s : CWebBrowser} (hs : Sound s) (n u : String) (h : Nat) :
    ∀ (i : Nat) (c : CWebBrowserClient), (s.heap ++ [newClient s n u h])[i]? = some c →
      c.address = i ∧ c.uniqueId = wrapInt32 i := by
  intro i c hi
  by_cases hlt : i < s.heap.length
  · rw [List.getElem?_append_left hlt] at hi
    exact hs.heapIds i c hi
  · have hle : s.heap.length ≤ i := Nat.le_of_not_lt hlt
    rw [List.getElem?_append_right hle] at hi
    by_cases h0 : i - s.heap.length = 0
    · rw [h0] at hi
      simp at hi
      subst hi
      have : i = s.heap.length := by omega
      subst this
      exact ⟨rfl, hs.counter⟩
    · obtain ⟨k, hk⟩ := Nat.exists_eq_succ_of_ne_zero h0
      rw [hk] at hi
      simp at hi

/-! ## `Sound` is kept by every call -/

theorem find?_name_none {s : CWebBrowser} {n : String}
    (he : s.m_browserClients.find? (fun entry => decide (entry.2.name = n)) = none) :
    ∀ a ∈ s.m_browserClients, a.2.name ≠ n := by
  intro a ha
  have := List.find?_eq_none.1 he a ha
  simpa using this

theorem CreateControl_cases (s : CWebBrowser) (n : String) :
    (∃ c, mapFind n s.m_browserClientsInactive = some c) ∨
    (mapFind n s.m_browserClientsInactive = none ∧
      ∃ e, s.m_browserClients.find? (fun entry => decide (entry.2.name = n)) = some e) ∨
    (mapFind n s.m_browserClientsInactive = none ∧
      s.m_browserClients.find? (fun entry => decide (entry.2.name = n)) = none) := by
  cases hf : mapFind n s.m_browserClientsInactive with
  | some c => exact Or.inl ⟨c, rfl⟩
  | none =>
    cases he : s.m_browserClients.find? (fun entry => decide (entry.2.name = n)) with
    | some e => exact Or.inr (Or.inl ⟨rfl, e, rfl⟩)
    | none => exact Or.inr (Or.inr ⟨rfl, rfl⟩)

theorem sound_grow {s : CWebBrowser} (hs : Sound s) (n u : String) (h : Nat)
    (active : List (Int × CWebBrowserClient)) (events : List Event)
    (hact : ∀ e ∈ active, e ∈ s.m_browserClients ∨ e = (s.m_iUniqueClientId, newClient s n u h))
    (hnd : (active.map Prod.fst).Nodup)
    (hev : ∀ a : Nat, Event.CloseComplete a ∈ events → Event.CloseComplete a ∈ s.events) :
    Sound { s with
      m_iUniqueClientId := wrapInt32 (s.m_iUniqueClientId + 1)
      heap := s.heap ++ [newClient s n u h]
      m_browserClients := active
      events := events } where
  started := hs.started
  counter := by
    simp only [List.length_append, List.length_singleton]
    rw [hs.counter]
    exact wrapInt32_succ _
  heapIds := heapIds_append hs n u h
  activeKey := by
    intro e he
    rcases hact e he with h1 | h1
    · exact ⟨(hs.activeKey e h1).1, List.mem_append_left _ (hs.activeKey e h1).2⟩
    · subst h1
      exact ⟨rfl, by simp⟩
  inactiveKey := fun e he =>
    ⟨(hs.inactiveKey e he).1, List.mem_append_left _ (hs.inactiveKey e he).2⟩
  deleteIds := by
    intro id hid
    obtain ⟨c, hc, hcid⟩ := hs.deleteIds id hid
    exact ⟨c, List.mem_append_left _ hc, hcid⟩
  closed := by
    intro a ha
    have := hs.closed a (hev a ha)
    simp only [List.length_append, List.length_singleton]
    omega
  activeNodup := hnd
  inactiveNodup := hs.inactiveNodup
  deleteNodup := hs.deleteNodup

theorem CreateControl_sound {s : CWebBrowser} (hs : Sound s) (n u : String) (h : Nat)
    (ok : Bool) : Sound (CreateControl s n u h ok).2 := by
  rcases CreateControl_cases s n with ⟨c, hf⟩ | ⟨hf, e, he⟩ | ⟨hf, he⟩
  · rw [CreateControl_reactivate hs.started hf]
    have hc := hs.inactiveKey _ (mapFind_some_mem hf)
    exact
      { started := hs.started
        counter := hs.counter
        heapIds := hs.heapIds
        activeKey := by
          intro e he
          rcases mem_mapEmplace he with h1 | h1
          · exact hs.activeKey e h1
          · subst h1
            exact ⟨rfl, hc.2⟩
        inactiveKey := fun e he => hs.inactiveKey e (mem_mapErase.1 he).1
        deleteIds := hs.deleteIds
        closed := by
          intro a ha
          exact hs.closed a (by simpa using ha)
        activeNodup := mapEmplace_keys_nodup hs.activeNodup
        inactiveNodup := mapErase_keys_nodup hs.inactiveNodup
        deleteNodup := hs.deleteNodup }
  · rw [CreateControl_existing hs.started hf he]
    exact hs
  · cases ok with
    | false =>
      rw [CreateControl_failed hs.started hf he]
      exact sound_grow hs n u h s.m_browserClients _ (fun e he => Or.inl he) hs.activeNodup
        (by intro a ha; simpa using ha)
    | true =>
      rw [CreateControl_new hs.started hf he]
      exact sound_grow hs n u h _ s.events (fun e he => mem_mapEmplace he)
        (mapEmplace_keys_nodup hs.activeNodup) (fun a ha => ha)

theorem CreateControl_heap_le (s : CWebBrowser) (n u : String) (h : Nat) (ok : Bool) :
    s.heap.length ≤ (CreateControl s n u h ok).2.heap.length := by
  unfold CreateControl registerControl
  split
  · exact Nat.le_refl _
  · split
    · exact Nat.le_refl _
    · split
      · exact Nat.le_refl _
      · split <;> simp

/-! ## `Separated` is kept while ids are not reused -/

theorem fresh_id_not_in_heap {s : CWebBrowser} (hs : Sound s) (hb : s.heap.length + 1 ≤ idSpace)
    {c : CWebBrowserClient} (hc : c ∈ s.heap) : c.uniqueId ≠ s.m_iUniqueClientId := by
  obtain ⟨_, hu, hlt⟩ := hs.mem_heap hc
  intro h
  rw [hu, hs.counter] at h
  have := wrapInt32_inj (i := c.address) (j := s.heap.length) (by omega) (by omega) h
  omega

theorem separated_of_same_maps {s t : CWebBrowser} (hp : Separated s)
    (ha : t.m_browserClients = s.m_browserClients)
    (hi : t.m_browserClientsInactive = s.m_browserClientsInactive)
    (hd : t.m_browserClientsInDelete = s.m_browserClientsInDelete)
    (hev : ∀ a : Nat, Event.CloseComplete a ∈ t.events → Event.CloseComplete a ∈ s.events) :
    Separated t where
  activeNames := by rw [ha]; exact hp.activeNames
  names := by rw [ha, hi]; exact hp.names
  activeInactive := by rw [ha, hi]; exact hp.activeInactive
  activeDelete := by rw [ha, hd]; exact hp.activeDelete
  inactiveDelete := by rw [hi, hd]; exact hp.inactiveDelete
  notClosed := by
    intro c hc hcl
    have hc1 : c ∈ pooled s := by
      simpa [pooled, ha, hi] using hc
    exact hp.notClosed c hc1 (hev _ hcl)

theorem CreateControl_separated {s : CWebBrowser} (hs : Sound s) (hp : Separated s)
    (n u : String) (h : Nat) (ok : Bool)
    (hb : (CreateControl s n u h ok).2.heap.length ≤ idSpace) :
    Separated (CreateControl s n u h ok).2 := by
  rcases CreateControl_cases s n with ⟨c, hf⟩ | ⟨hf, e, he⟩ | ⟨hf, he⟩
  · rw [CreateControl_reactivate hs.started hf] at hb ⊢
    have hmem := mapFind_some_mem hf
    have hc := hs.inactiveKey _ hmem
    have hnone : mapFind c.uniqueId s.m_browserClients = none :=
      (mapFind_eq_none_iff _ _).2 (fun a ha => hp.activeInactive a ha _ hmem)
    simp only [mapEmplace_of_none c hnone]
    have hname : n = c.name := hc.1
    exact
      { activeNames := by
          rw [List.map_append, List.nodup_append]
          refine ⟨hp.activeNames, by simp, ?_⟩
          intro x hx hy
          obtain ⟨a, ha, rfl⟩ := List.mem_map.1 hx
          simp at hy
          exact hp.names a ha _ hmem hy
        names := by
          intro a ha i hi
          have hi1 := mem_mapErase.1 hi
          rcases List.mem_append.1 ha with h1 | h1
          · exact hp.names a h1 i hi1.1
          · simp at h1
            subst h1
            intro heq
            apply hi1.2
            rw [(hs.inactiveKey i hi1.1).1, hname]
            exact heq.symm
        activeInactive := by
          intro a ha i hi
          have hi1 := mem_mapErase.1 hi
          rcases List.mem_append.1 ha with h1 | h1
          · exact hp.activeInactive a h1 i hi1.1
          · simp at h1
            subst h1
            intro heq
            have : c = i.2 :=
              hs.eq_of_uniqueId hb hc.2 (hs.inactiveKey i hi1.1).2 heq
            apply hi1.2
            rw [(hs.inactiveKey i hi1.1).1, hname, this]
        activeDelete := by
          intro a ha
          rcases List.mem_append.1 ha with h1 | h1
          · exact hp.activeDelete a h1
          · simp at h1
            subst h1
            exact hp.inactiveDelete _ hmem
        inactiveDelete := fun i hi => hp.inactiveDelete i (mem_mapErase.1 hi).1
        notClosed := by
          intro d hd hcl
          have hcl1 : Event.CloseComplete d.address ∈ s.events := by simpa using hcl
          apply hp.notClosed d _ hcl1
          rw [mem_pooled] at hd ⊢
          rcases hd with ⟨a, ha, rfl⟩ | ⟨i, hi, rfl⟩
          · rcases List.mem_append.1 ha with h1 | h1
            · exact Or.inl ⟨a, h1, rfl⟩
            · simp at h1
              subst h1
              exact Or.inr ⟨_, hmem, rfl⟩
          · exact Or.inr ⟨i, (mem_mapErase.1 hi).1, rfl⟩ }
  · rw [CreateControl_existing hs.started hf he]
    exact hp
  · cases ok with
    | false =>
      rw [CreateControl_failed hs.started hf he]
      exact separated_of_same_maps hp rfl rfl rfl (by intro a ha; simpa using ha)
    | true =>
      rw [CreateControl_new hs.started hf he] at hb ⊢
      have hb1 : s.heap.length + 1 ≤ idSpace := by simpa using hb
      have hfresh : mapFind s.m_iUniqueClientId s.m_browserClients = none := by
        rw [mapFind_eq_none_iff]
        intro a ha heq
        have := hs.activeKey a ha
        exact fresh_id_not_in_heap hs hb1 this.2 (this.1 ▸ heq)
      simp only [mapEmplace_of_none _ hfresh]
      have hnoname := find?_name_none he
      have hnokey := (mapFind_eq_none_iff _ _).1 hf
      exact
        { activeNames := by
            rw [List.map_append, List.nodup_append]
            refine ⟨hp.activeNames, by simp, ?_⟩
            intro x hx hy
            obtain ⟨a, ha, rfl⟩ := List.mem_map.1 hx
            simp [newClient] at hy
            exact hnoname a ha hy
          names := by
            intro a ha i hi
            rcases List.mem_append.1 ha with h1 | h1
            · exact hp.names a h1 i hi
            · simp at h1
              subst h1
              intro heq
              apply hnokey i hi
              rw [(hs.inactiveKey i hi).1]
              exact heq.symm
          activeInactive := by
            intro a ha i hi
            rcases List.mem_append.1 ha with h1 | h1
            · exact hp.activeInactive a h1 i hi
            · simp at h1
              subst h1
              exact fun heq => fresh_id_not_in_heap hs hb1 (hs.inactiveKey i hi).2 heq.symm
          activeDelete := by
            intro a ha
            rcases List.mem_append.1 ha with h1 | h1
            · exact hp.activeDelete a h1
            · simp at h1
              subst h1
              intro hmem
              obtain ⟨d, hd, hdid⟩ := hs.deleteIds _ hmem
              exact fresh_id_not_in_heap hs hb1 hd hdid
          inactiveDelete := hp.inactiveDelete
          notClosed := by
            intro d hd hcl
            rw [mem_pooled] at hd
            rcases hd with ⟨a, ha, rfl⟩ | ⟨i, hi, rfl⟩
            · rcases List.mem_append.1 ha with h1 | h1
              · exact hp.notClosed a.2 (mem_pooled.2 (Or.inl ⟨a, h1, rfl⟩)) hcl
              · simp at h1
                subst h1
                have := hs.closed _ hcl
                simp [newClient] at this
            · exact hp.notClosed i.2 (mem_pooled.2 (Or.inr ⟨i, hi, rfl⟩)) hcl }

/-! ## The branches of `DestroyControl` -/

theorem DestroyControl_null {destroyed : List Int}
    {s : CWebBrowser} (hst : s.m_started = true) (complete : Bool) :
    DestroyControl s none complete destroyed =
      (false,
       { s with events := s.events ++ [Event.LogError LogMessage.destroyWithoutHandle] }) := by
  simp [DestroyControl, hst]

theorem DestroyControl_complete {destroyed : List Int} {s : CWebBrowser} (hst : s.m_started = true)
    (c : CWebBrowserClient) :
    DestroyControl s (some c) true destroyed =
      (true,
       { s with
         m_browserClients := mapErase c.uniqueId s.m_browserClients
         m_browserClientsInactive := mapErase c.name s.m_browserClientsInactive
         m_browserClientsInDelete :=
           eraseAll destroyed (setInsert c.uniqueId s.m_browserClientsInDelete)
         events := s.events ++ [Event.SetInactive c.address] ++
           [Event.CloseComplete c.address, Event.CefDoMessageLoopWork] }) := by
  simp [DestroyControl, hst, pumpMessageLoop_eq]

theorem DestroyControl_missing {destroyed : List Int} {s : CWebBrowser} (hst : s.m_started = true)
    {c : CWebBrowserClient} (hf : mapFind c.uniqueId s.m_browserClients = none) :
    DestroyControl s (some c) false destroyed =
      (false,
       { s with
         m_browserClients := mapErase c.uniqueId s.m_browserClients
         events := s.events ++ [Event.SetInactive c.address] ++
           [Event.LogError LogMessage.destroyInvalidId] }) := by
  simp [DestroyControl, hst, hf]

theorem DestroyControl_park {destroyed : List Int} {s : CWebBrowser} (hst : s.m_started = true)
    {c d : CWebBrowserClient} (hf : mapFind c.uniqueId s.m_browserClients = some d) :
    DestroyControl s (some c) false destroyed =
      (true,
       { s with
         m_browserClients := mapErase c.uniqueId s.m_browserClients
         m_browserClientsInactive := mapAssign c.name c s.m_browserClientsInactive
         events := s.events ++ [Event.SetInactive c.address] }) := by
  simp [DestroyControl, hst, hf]

theorem DestroyControl_heap {destroyed : List Int}
    (s : CWebBrowser) (control : Option CWebBrowserClient)
    (complete : Bool) : (DestroyControl s control complete destroyed).2.heap = s.heap := by
  cases hst : s.m_started with
  | false => simp [DestroyControl, hst]
  | true =>
    cases control with
    | none => rw [DestroyControl_null hst]
    | some c =>
      cases complete with
      | true => rw [DestroyControl_complete hst]
      | false =>
        cases hf : mapFind c.uniqueId s.m_browserClients with
        | none => rw [DestroyControl_missing hst hf]
        | some d => rw [DestroyControl_park hst hf]

theorem DestroyControl_sound {destroyed : List Int}
    {s : CWebBrowser} (hs : Sound s) {c : CWebBrowserClient}
    (hc : c ∈ s.heap) (complete : Bool) : Sound (DestroyControl s (some c) complete destroyed).2 := by
  have hlt := (hs.mem_heap hc).2.2
  cases complete with
  | true =>
    rw [DestroyControl_complete hs.started]
    exact
      { started := hs.started
        counter := hs.counter
        heapIds := hs.heapIds
        activeKey := fun e he => hs.activeKey e (mem_mapErase.1 he).1
        inactiveKey := fun e he => hs.inactiveKey e (mem_mapErase.1 he).1
        deleteIds := by
          intro id hid
          rcases mem_setInsert.1 ((mem_eraseAll _ _ _).1 hid).1 with h1 | h1
          · exact hs.deleteIds id h1
          · exact ⟨c, hc, h1.symm⟩
        closed := by
          intro a ha
          simp at ha
          rcases ha with h1 | h1
          · exact hs.closed a h1
          · rw [h1]; exact hlt
        activeNodup := mapErase_keys_nodup hs.activeNodup
        inactiveNodup := mapErase_keys_nodup hs.inactiveNodup
        deleteNodup := (setInsert_nodup hs.deleteNodup).sublist (eraseAll_sublist _ _) }
  | false =>
    cases hf : mapFind c.uniqueId s.m_browserClients with
    | none =>
      rw [DestroyControl_missing hs.started hf]
      exact
        { started := hs.started
          counter := hs.counter
          heapIds := hs.heapIds
          activeKey := fun e he => hs.activeKey e (mem_mapErase.1 he).1
          inactiveKey := hs.inactiveKey
          deleteIds := hs.deleteIds
          closed := by
            intro a ha
            exact hs.closed a (by simpa using ha)
          activeNodup := mapErase_keys_nodup hs.activeNodup
          inactiveNodup := hs.inactiveNodup
          deleteNodup := hs.deleteNodup }
    | some d =>
      rw [DestroyControl_park hs.started hf]
      exact
        { started := hs.started
          counter := hs.counter
          heapIds := hs.heapIds
          activeKey := fun e he => hs.activeKey e (mem_mapErase.1 he).1
          inactiveKey := by
            intro e he
            rcases mem_mapAssign he with h1 | h1
            · exact hs.inactiveKey e h1
            · subst h1
              exact ⟨rfl, hc⟩
          deleteIds := hs.deleteIds
          closed := by
            intro a ha
            exact hs.closed a (by simpa using ha)
          activeNodup := mapErase_keys_nodup hs.activeNodup
          inactiveNodup := mapAssign_keys_nodup hs.inactiveNodup
          deleteNodup := hs.deleteNodup }

theorem DestroyControl_null_sound {destroyed : List Int}
    {s : CWebBrowser} (hs : Sound s) (complete : Bool) :
    Sound (DestroyControl s none complete destroyed).2 := by
  rw [DestroyControl_null hs.started]
  exact
    { started := hs.started
      counter := hs.counter
      heapIds := hs.heapIds
      activeKey := hs.activeKey
      inactiveKey := hs.inactiveKey
      deleteIds := hs.deleteIds
      closed := by
        intro a ha
        exact hs.closed a (by simpa using ha)
      activeNodup := hs.activeNodup
      inactiveNodup := hs.inactiveNodup
      deleteNodup := hs.deleteNodup }

theorem InformDestroyed_sound {s : CWebBrowser} (hs : Sound s) (id : Int) :
    Sound (InformDestroyed s id) where
  started := hs.started
  counter := hs.counter
  heapIds := hs.heapIds
  activeKey := hs.activeKey
  inactiveKey := hs.inactiveKey
  deleteIds := fun x hx => hs.deleteIds x (mem_setErase.1 hx).1
  closed := hs.closed
  activeNodup := hs.activeNodup
  inactiveNodup := hs.inactiveNodup
  deleteNodup := hs.deleteNodup.sublist (setErase_sublist id _)

theorem Sound.eq_of_address {s : CWebBrowser} (hs : Sound s) {c d : CWebBrowserClient}
    (hc : c ∈ s.heap) (hd : d ∈ s.heap) (h : c.address = d.address) : c = d := by
  have h1 := (hs.mem_heap hc).1
  have h2 := (hs.mem_heap hd).1
  rw [h, h2] at h1
  exact (Option.some.inj h1).symm

theorem mapErase_names_nodup {k : Int} {m : List (Int × CWebBrowserClient)}
    (h : (m.map (fun e => e.2.name)).Nodup) :
    ((mapErase k m).map (fun e => e.2.name)).Nodup :=
  h.sublist ((mapErase_sublist k m).map _)

theorem DestroyControl_separated {destroyed : List Int}
    {s : CWebBrowser} (hs : Sound s) (hp : Separated s)
    (hb : s.heap.length ≤ idSpace) {c : CWebBrowserClient} (hc : c ∈ s.heap) (complete : Bool) :
    Separated (DestroyControl s (some c) complete destroyed).2 := by
  cases complete with
  | true =>
    rw [DestroyControl_complete hs.started]
    exact
      { activeNames := mapErase_names_nodup hp.activeNames
        names := fun a ha i hi => hp.names a (mem_mapErase.1 ha).1 i (mem_mapErase.1 hi).1
        activeInactive := fun a ha i hi =>
          hp.activeInactive a (mem_mapErase.1 ha).1 i (mem_mapErase.1 hi).1
        activeDelete := by
          intro a ha hmem
          have ha1 := mem_mapErase.1 ha
          rcases mem_setInsert.1 ((mem_eraseAll _ _ _).1 hmem).1 with h1 | h1
          · exact hp.activeDelete a ha1.1 h1
          · exact ha1.2 h1
        inactiveDelete := by
          intro i hi hmem
          have hi1 := mem_mapErase.1 hi
          rcases mem_setInsert.1 ((mem_eraseAll _ _ _).1 hmem).1 with h1 | h1
          · exact hp.inactiveDelete i hi1.1 h1
          · have : i.2 = c := hs.eq_of_uniqueId hb (hs.inactiveKey i hi1.1).2 hc h1
            apply hi1.2
            rw [(hs.inactiveKey i hi1.1).1, this]
        notClosed := by
          intro d hd hcl
          simp at hcl
          rw [mem_pooled] at hd
          rcases hcl with h1 | h1
          · apply hp.notClosed d _ h1
            rw [mem_pooled]
            rcases hd with ⟨a, ha, rfl⟩ | ⟨i, hi, rfl⟩
            · exact Or.inl ⟨a, (mem_mapErase.1 ha).1, rfl⟩
            · exact Or.inr ⟨i, (mem_mapErase.1 hi).1, rfl⟩
          · rcases hd with ⟨a, ha, rfl⟩ | ⟨i, hi, rfl⟩
            · have ha1 := mem_mapErase.1 ha
              have : a.2 = c := hs.eq_of_address (hs.activeKey a ha1.1).2 hc h1
              apply ha1.2
              rw [(hs.activeKey a ha1.1).1, this]
            · have hi1 := mem_mapErase.1 hi
              have : i.2 = c := hs.eq_of_address (hs.inactiveKey i hi1.1).2 hc h1
              apply hi1.2
              rw [(hs.inactiveKey i hi1.1).1, this] }
  | false =>
    cases hf : mapFind c.uniqueId s.m_browserClients with
    | none =>
      rw [DestroyControl_missing hs.started hf]
      rw [mapErase_eq_self hf]
      exact separated_of_same_maps hp rfl rfl rfl (by intro a ha; simpa using ha)
    | some d =>
      rw [DestroyControl_park hs.started hf]
      have hmem := mapFind_some_mem hf
      have hd := hs.activeKey _ hmem
      have hdc : d = c := hs.eq_of_uniqueId hb hd.2 hc hd.1.symm
      subst hdc
      have hnone : mapFind d.name s.m_browserClientsInactive = none := by
        rw [mapFind_eq_none_iff]
        intro i hi heq
        exact hp.names _ hmem i hi (by rw [← heq, (hs.inactiveKey i hi).1])
      simp only [mapAssign_of_none d hnone]
      exact
        { activeNames := mapErase_names_nodup hp.activeNames
          names := by
            intro a ha i hi
            have ha1 := mem_mapErase.1 ha
            rcases List.mem_append.1 hi with h1 | h1
            · exact hp.names a ha1.1 i h1
            · simp at h1
              subst h1
              intro heq
              have := List.inj_on_of_nodup_map hp.activeNames ha1.1 hmem heq
              exact ha1.2 (by rw [this])
          activeInactive := by
            intro a ha i hi
            have ha1 := mem_mapErase.1 ha
            rcases List.mem_append.1 hi with h1 | h1
            · exact hp.activeInactive a ha1.1 i h1
            · simp at h1
              subst h1
              exact ha1.2
          activeDelete := fun a ha => hp.activeDelete a (mem_mapErase.1 ha).1
          inactiveDelete := by
            intro i hi
            rcases List.mem_append.1 hi with h1 | h1
            · exact hp.inactiveDelete i h1
            · simp at h1
              subst h1
              exact hp.activeDelete _ hmem
          notClosed := by
            intro x hx hcl
            have hcl1 : Event.CloseComplete x.address ∈ s.events := by simpa using hcl
            apply hp.notClosed x _ hcl1
            rw [mem_pooled] at hx ⊢
            rcases hx with ⟨a, ha, rfl⟩ | ⟨i, hi, rfl⟩
            · exact Or.inl ⟨a, (mem_mapErase.1 ha).1, rfl⟩
            · rcases List.mem_append.1 hi with h1 | h1
              · exact Or.inr ⟨i, h1, rfl⟩
              · simp at h1
                subst h1
                exact Or.inl ⟨_, hmem, rfl⟩ }

theorem DestroyControl_null_separated {destroyed : List Int}
    {s : CWebBrowser} (hs : Sound s) (hp : Separated s)
    (complete : Bool) : Separated (DestroyControl s none complete destroyed).2 := by
  rw [DestroyControl_null hs.started]
  exact separated_of_same_maps hp rfl rfl rfl (by intro a ha; simpa using ha)

theorem InformDestroyed_separated {s : CWebBrowser} (hp : Separated s) (id : Int) :
    Separated (InformDestroyed s id) where
  activeNames := hp.activeNames
  names := hp.names
  activeInactive := hp.activeInactive
  activeDelete := fun a ha hmem => hp.activeDelete a ha (mem_setErase.1 hmem).1
  inactiveDelete := fun i hi hmem => hp.inactiveDelete i hi (mem_setErase.1 hmem).1
  notClosed := hp.notClosed

/-! ## Call sequences keep the invariants -/

theorem applyCall_heap_le (s : CWebBrowser) (call : Call) :
    s.heap.length ≤ (applyCall s call).heap.length := by
  cases call with
  | Create n u h ok => exact CreateControl_heap_le s n u h ok
  | Destroy control complete =>
    cases control with
    | none => simp [applyCall, DestroyControl_heap]
    | some a =>
      simp only [applyCall]
      split
      · simp [DestroyControl_heap]
      · exact Nat.le_refl _
  | Destroyed id => exact Nat.le_refl _

theorem applyCall_sound {s : CWebBrowser} (hs : Sound s) (call : Call) :
    Sound (applyCall s call) := by
  cases call with
  | Create n u h ok => exact CreateControl_sound hs n u h ok
  | Destroy control complete =>
    cases control with
    | none => exact DestroyControl_null_sound hs complete
    | some a =>
      simp only [applyCall]
      split
      · rename_i client hget
        exact DestroyControl_sound hs (List.getElem?_mem hget) complete
      · exact hs
  | Destroyed id => exact InformDestroyed_sound hs id

theorem applyCall_separated {s : CWebBrowser} (hs : Sound s) (hp : Separated s) (call : Call)
    (hb : (applyCall s call).heap.length ≤ idSpace) : Separated (applyCall s call) := by
  have hb0 : s.heap.length ≤ idSpace := Nat.le_trans (applyCall_heap_le s call) hb
  cases call with
  | Create n u h ok => exact CreateControl_separated hs hp n u h ok hb
  | Destroy control complete =>
    cases control with
    | none => exact DestroyControl_null_separated hs hp complete
    | some a =>
      simp only [applyCall]
      split
      · rename_i client hget
        exact DestroyControl_separated hs hp hb0 (List.getElem?_mem hget) complete
      · exact hp
  | Destroyed id => exact InformDestroyed_separated hp id

theorem runCalls_heap_le (calls : List Call) (s : CWebBrowser) :
    s.heap.length ≤ (runCalls s calls).heap.length := by
  induction calls generalizing s with
  | nil => exact Nat.le_refl _
  | cons call calls ih =>
    exact Nat.le_trans (applyCall_heap_le s call) (ih (applyCall s call))

theorem runCalls_sound (calls : List Call) {s : CWebBrowser} (hs : Sound s) :
    Sound (runCalls s calls) := by
  induction calls generalizing s with
  | nil => exact hs
  | cons call calls ih => exact ih (applyCall_sound hs call)

theorem runCalls_separated (calls : List Call) {s : CWebBrowser} (hs : Sound s)
    (hp : Separated s) (hb : (runCalls s calls).heap.length ≤ idSpace) :
    Separated (runCalls s calls) := by
  induction calls generalizing s with
  | nil => exact hp
  | cons call calls ih =>
    have hb1 : (applyCall s call).heap.length ≤ idSpace :=
      Nat.le_trans (runCalls_heap_le calls (applyCall s call)) hb
    exact ih (applyCall_sound hs call) (applyCall_separated hs hp call hb1) hb

theorem nameUnique_of_separated {s : CWebBrowser} (hs : Sound s) (hp : Separated s) :
    NameUnique s := by
  intro n
  apply List.nodup_iff_count_le_one.1
  unfold pooled
  rw [List.map_append, List.nodup_append, List.map_map, List.map_map]
  refine ⟨hp.activeNames, ?_, ?_⟩
  · have : s.m_browserClientsInactive.map (CWebBrowserClient.name ∘ Prod.snd) =
        s.m_browserClientsInactive.map Prod.fst := by
      apply List.map_congr_left
      intro e he
      exact (hs.inactiveKey e he).1.symm
    rw [this]
    exact hs.inactiveNodup
  · intro x hx hy
    obtain ⟨a, ha, rfl⟩ := List.mem_map.1 hx
    obtain ⟨i, hi, hxi⟩ := List.mem_map.1 hy
    exact hp.names a ha i hi hxi.symm

theorem idDisjoint_of_separated {s : CWebBrowser} (hp : Separated s) : IdDisjoint s := by
  intro id
  refine ⟨?_, ?_, ?_⟩
  · rintro ⟨h1, h2⟩
    obtain ⟨a, ha, rfl⟩ := List.mem_map.1 h1
    obtain ⟨i, hi, hxi⟩ := List.mem_map.1 h2
    exact hp.activeInactive a ha i hi hxi.symm
  · rintro ⟨h1, h2⟩
    obtain ⟨a, ha, rfl⟩ := List.mem_map.1 h1
    exact hp.activeDelete a ha h2
  · rintro ⟨h1, h2⟩
    obtain ⟨i, hi, rfl⟩ := List.mem_map.1 h1
    exact hp.inactiveDelete i hi h2

/-! ## Running out of unique ids

`m_iUniqueClientId` is an `int`: after 2^32 constructions the counter is back
at a value it has handed out before. The calls below construct, completely
release and report destroyed one spare control after the other; the pool's
three containers are the same after each round, only the counter moves on. -/

theorem runCalls_append (s : CWebBrowser) (a b : List Call) :
    runCalls s (a ++ b) = runCalls (runCalls s a) b := by
  simp [runCalls, List.foldl_append]

theorem churn_round {s : CWebBrowser} (hst : s.m_started = true)
    (hcnt : s.m_iUniqueClientId = wrapInt32 s.heap.length)
    (hI : mapFind "spare" s.m_browserClientsInactive = none)
    (hA : s.m_browserClients.find? (fun entry => decide (entry.2.name = "spare")) = none)
    (hk : mapFind (wrapInt32 s.heap.length) s.m_browserClients = none)
    (hP : wrapInt32 s.heap.length ∉ s.m_browserClientsInDelete) :
    Churned s (runCalls s (churn s.heap.length)) 1 := by
  have hk1 : mapFind s.m_iUniqueClientId s.m_browserClients = none := by rw [hcnt]; exact hk
  have hget : (s.heap ++ [newClient s "spare" "" 0])[s.heap.length]? =
      some (newClient s "spare" "" 0) := by
    rw [List.getElem?_append_right (Nat.le_refl _)]
    simp
  have hrun : runCalls s (churn s.heap.length) =
      { s with
        m_iUniqueClientId := wrapInt32 (s.m_iUniqueClientId + 1)
        heap := s.heap ++ [newClient s "spare" "" 0]
        events := s.events ++ [Event.SetInactive s.heap.length] ++
          [Event.CloseComplete s.heap.length, Event.CefDoMessageLoopWork] } := by
    have herase : mapErase s.m_iUniqueClientId
        (s.m_browserClients ++ [(s.m_iUniqueClientId, newClient s "spare" "" 0)]) =
        s.m_browserClients := by
      have := mapErase_eq_self hk1
      unfold mapErase at this ⊢
      rw [List.filter_append, this]
      simp
    have hset : setErase s.m_iUniqueClientId
        (setInsert s.m_iUniqueClientId s.m_browserClientsInDelete) =
        s.m_browserClientsInDelete := by
      have hP1 : s.m_iUniqueClientId ∉ s.m_browserClientsInDelete := by rw [hcnt]; exact hP
      unfold setInsert setErase
      rw [if_neg hP1, List.filter_append]
      have : s.m_browserClientsInDelete.filter (fun y => decide (y ≠ s.m_iUniqueClientId)) =
          s.m_browserClientsInDelete := by
        rw [List.filter_eq_self]
        intro y hy
        have hne : y ≠ s.m_iUniqueClientId := fun h => hP1 (h ▸ hy)
        simpa using hne
      rw [this]
      simp
    simp only [runCalls, churn, List.foldl_cons, List.foldl_nil, applyCall]
    rw [CreateControl_new hst hI hA]
    simp only [hget]
    have hd := @DestroyControl_complete []
      { s with
        m_iUniqueClientId := wrapInt32 (s.m_iUniqueClientId + 1)
        heap := s.heap ++ [newClient s "spare" "" 0]
        m_browserClients :=
          mapEmplace s.m_iUniqueClientId (newClient s "spare" "" 0) s.m_browserClients }
      hst (newClient s "spare" "" 0)
    rw [hd]
    simp only [InformDestroyed, mapEmplace_of_none _ hk1, mapErase_eq_self hI, eraseAll,
      List.foldl_nil]
    rw [← hcnt]
    have hid : (newClient s "spare" "" 0).uniqueId = s.m_iUniqueClientId := rfl
    have had : (newClient s "spare" "" 0).address = s.heap.length := rfl
    have hnm : (newClient s "spare" "" 0).name = "spare" := rfl
    rw [hid, had, hnm, herase, hset, mapErase_eq_self hI]
  rw [hrun]
  exact
    { started := hst
      counter := by
        simp only [List.length_append, List.length_singleton]
        rw [hcnt]
        exact wrapInt32_succ _
      length := by simp
      active := rfl
      inactive := rfl
      delete := rfl
      older := fun i hi => List.getElem?_append_left hi }

theorem churn_rounds (n : Nat) : ∀ (s : CWebBrowser), s.m_started = true →
    s.m_iUniqueClientId = wrapInt32 s.heap.length →
    mapFind "spare" s.m_browserClientsInactive = none →
    s.m_browserClients.find? (fun entry => decide (entry.2.name = "spare")) = none →
    (∀ i : Nat, i < n → mapFind (wrapInt32 ((s.heap.length + i : Nat) : Int)) s.m_browserClients = none ∧
      wrapInt32 ((s.heap.length + i : Nat) : Int) ∉ s.m_browserClientsInDelete) →
    Churned s (runCalls s (churnCalls s.heap.length n)) n := by
  induction n with
  | zero =>
    intro s hst hcnt _ _ _
    exact
      { started := hst, counter := hcnt, length := rfl, active := rfl, inactive := rfl,
        delete := rfl, older := fun _ _ => rfl }
  | succ n ih =>
    intro s hst hcnt hI hA hfree
    have h0 := hfree 0 (Nat.succ_pos n)
    have hr := churn_round hst hcnt hI hA (by simpa using h0.1) (by simpa using h0.2)
    have hlen : (runCalls s (churn s.heap.length)).heap.length = s.heap.length + 1 := hr.length
    have hnext := ih (runCalls s (churn s.heap.length)) hr.started hr.counter
      (by rw [hr.inactive]; exact hI) (by rw [hr.active]; exact hA)
      (by
        intro i hi
        rw [hr.active, hr.delete, hlen]
        have := hfree (i + 1) (Nat.succ_lt_succ hi)
        rw [show s.heap.length + (i + 1) = s.heap.length + 1 + i by omega] at this
        exact this)
    rw [hlen] at hnext
    have hcalls : churnCalls s.heap.length (n + 1) =
        churn s.heap.length ++ churnCalls (s.heap.length + 1) n := rfl
    rw [hcalls, runCalls_append]
    exact
      { started := hnext.started
        counter := hnext.counter
        length := by rw [hnext.length, hlen]; omega
        active := hnext.active.trans hr.active
        inactive := hnext.inactive.trans hr.inactive
        delete := hnext.delete.trans hr.delete
        older := by
          intro i hi
          rw [hnext.older i (by rw [hlen]; omega)]
          exact hr.older i hi }

theorem create_with_used_id {t : CWebBrowser} (hst : t.m_started = true)
    (hact : t.m_browserClients = []) (hina : t.m_browserClientsInactive = [])
    (hdel : t.m_browserClientsInDelete = [0]) (hcnt : t.m_iUniqueClientId = 0) :
    (runCalls t [Call.Create "c" "y" 0 true]).m_browserClients.map Prod.fst = [0] ∧
    (runCalls t [Call.Create "c" "y" 0 true]).m_browserClientsInDelete = [0] := by
  have hI : mapFind "c" t.m_browserClientsInactive = none := by rw [hina]; rfl
  have hA : t.m_browserClients.find? (fun entry => decide (entry.2.name = "c")) = none := by
    rw [hact]; rfl
  have hrun : runCalls t [Call.Create "c" "y" 0 true] = (CreateControl t "c" "y" 0 true).2 := by
    simp only [runCalls, List.foldl_cons, List.foldl_nil, applyCall]
  rw [hrun, CreateControl_new hst hI hA]
  constructor <;> simp [hact, hdel, hcnt, mapEmplace, mapFind]

theorem reusedId_state :
    (runCalls emptyPool reusedIdCalls).m_browserClients.map Prod.fst = [0] ∧
    (runCalls emptyPool reusedIdCalls).m_browserClientsInDelete = [0] := by
  have hst : (runCalls emptyPool
      [Call.Create "a" "x" 0 true, Call.Destroy (some 0) true []]).m_started = true := rfl
  have hc0 : (runCalls emptyPool
      [Call.Create "a" "x" 0 true, Call.Destroy (some 0) true []]).m_iUniqueClientId = 1 := rfl
  have hlen : (runCalls emptyPool
      [Call.Create "a" "x" 0 true, Call.Destroy (some 0) true []]).heap.length = 1 := rfl
  have hact : (runCalls emptyPool
      [Call.Create "a" "x" 0 true, Call.Destroy (some 0) true []]).m_browserClients = [] := rfl
  have hina : (runCalls emptyPool
      [Call.Create "a" "x" 0 true, Call.Destroy (some 0) true []]).m_browserClientsInactive = [] := rfl
  have hdel : (runCalls emptyPool
      [Call.Create "a" "x" 0 true, Call.Destroy (some 0) true []]).m_browserClientsInDelete = [0] := rfl
  unfold reusedIdCalls
  rw [runCalls_append, runCalls_append]
  generalize runCalls emptyPool [Call.Create "a" "x" 0 true, Call.Destroy (some 0) true []] = s0
    at hst hc0 hlen hact hina hdel ⊢
  have hch := churn_rounds 4294967295 s0 hst (by rw [hc0, hlen]; rfl)
    (by rw [hina]; rfl) (by rw [hact]; rfl)
    (by
      intro i hi
      rw [hact, hdel, hlen]
      refine ⟨rfl, ?_⟩
      simp only [List.mem_singleton]
      unfold wrapInt32
      push_cast
      omega)
  rw [hlen] at hch
  refine create_with_used_id hch.started (hch.active.trans hact) (hch.inactive.trans hina)
    (hch.delete.trans hdel) ?_
  rw [hch.counter, hch.length, hlen]
  unfold wrapInt32
  omega

theorem duplicateNameTail_names (t : CWebBrowser) (first : CWebBrowserClient)
    (hst : t.m_started = true) (hcnt : t.m_iUniqueClientId = 0)
    (hact : t.m_browserClients = [(0, first)]) (hina : t.m_browserClientsInactive = [])
    (hname : first.name = "a") (hid : first.uniqueId = 0) (h0 : t.heap[0]? = some first) :
    (pooled (runCalls t (duplicateNameTail t.heap.length))).map CWebBrowserClient.name =
      ["a", "a"] := by
  obtain ⟨st, cnt, A, I, P, H, E⟩ := t
  simp only at hst hcnt hact hina h0
  subst hst hcnt hact hina
  cases H with
  | nil => simp at h0
  | cons x H =>
    have hx : x = first := by simpa using h0
    subst hx
    have h1 : ∀ y : CWebBrowserClient, (x :: (H ++ [y]))[H.length + 1]? = some y := by
      intro y
      simp
    simp [duplicateNameTail, runCalls, applyCall, CreateControl, DestroyControl, registerControl,
      mapFind, mapErase, mapEmplace, mapAssign, pooled, wrapInt32, h1, hname, hid]

theorem wrappedCalls_state : Wrapped (runCalls emptyPool wrappedCalls) := by
  have hst : (runCalls emptyPool [Call.Create "a" "x" 0 true]).m_started = true := rfl
  have hc0 : (runCalls emptyPool [Call.Create "a" "x" 0 true]).m_iUniqueClientId = 1 := rfl
  have hlen : (runCalls emptyPool [Call.Create "a" "x" 0 true]).heap.length = 1 := rfl
  have hact : (runCalls emptyPool [Call.Create "a" "x" 0 true]).m_browserClients =
      [(0, firstClient)] := rfl
  have hina : (runCalls emptyPool [Call.Create "a" "x" 0 true]).m_browserClientsInactive = [] :=
    rfl
  have hdel : (runCalls emptyPool [Call.Create "a" "x" 0 true]).m_browserClientsInDelete = [] :=
    rfl
  have hget : (runCalls emptyPool [Call.Create "a" "x" 0 true]).heap[0]? = some firstClient :=
    rfl
  unfold wrappedCalls
  rw [runCalls_append]
  generalize runCalls emptyPool [Call.Create "a" "x" 0 true] = s0
    at hst hc0 hlen hact hina hdel hget ⊢
  have hch := churn_rounds 4294967295 s0 hst (by rw [hc0, hlen]; rfl)
    (by rw [hina]; rfl) (by rw [hact]; rfl)
    (by
      intro i hi
      rw [hact, hdel, hlen]
      refine ⟨?_, List.not_mem_nil _⟩
      have hne : ¬ (0 : Int) = wrapInt32 ((1 + i : Nat) : Int) := by
        unfold wrapInt32
        push_cast
        omega
      simp only [mapFind, if_neg hne])
  rw [hlen] at hch
  have hlen1 : (runCalls s0 (churnCalls 1 4294967295)).heap.length = 4294967296 := by
    rw [hch.length, hlen]
  exact
    { started := hch.started
      counter := by rw [hch.counter, hlen1]; unfold wrapInt32; omega
      active := hch.active.trans hact
      inactive := hch.inactive.trans hina
      delete := hch.delete.trans hdel
      length := hlen1
      first := by rw [hch.older 0 (by omega), hget] }

theorem duplicateName_state :
    (pooled (runCalls emptyPool duplicateNameCalls)).map CWebBrowserClient.name = ["a", "a"] := by
  have hw := wrappedCalls_state
  unfold duplicateNameCalls
  rw [runCalls_append]
  have key := duplicateNameTail_names (runCalls emptyPool wrappedCalls) firstClient
    hw.started hw.counter hw.active hw.inactive rfl rfl hw.first
  rw [hw.length] at key
  exact key

/-! ## Name uniqueness and id disjointness along call sequences -/

/-- C1 (as amended): in every pool state reached from the empty pool by a
sequence of CreateControl, DestroyControl and InformDestroyed calls during
which at most 2^32 client objects were constructed, no name is carried by more
than one instance across the active and the inactive map taken together. -/
theorem nameUnique_of_calls (calls : List Call)
    (hb : (runCalls emptyPool calls).heap.length ≤ idSpace) :
    NameUnique (runCalls emptyPool calls) :=
  nameUnique_of_separated (runCalls_sound calls sound_emptyPool)
    (runCalls_separated calls sound_emptyPool separated_emptyPool hb)

theorem nameUnique_of_calls_witness :
    (runCalls emptyPool
        [Call.Create "a" "x" 1 true, Call.Destroy (some 0) false [],
         Call.Create "b" "y" 2 true]).heap.length ≤ idSpace ∧
      NameUnique (runCalls emptyPool
        [Call.Create "a" "x" 1 true, Call.Destroy (some 0) false [], Call.Create "b" "y" 2 true]) :=
  ⟨by decide, nameUnique_of_calls _ (by decide)⟩

/-- C1 (as stated) fails: once the 32 bit id counter has wrapped around, the
calls of `duplicateNameCalls` leave one control named "a" in the active map
and another one named "a" in the inactive map. -/
theorem nameUnique_fails_after_id_reuse :
    ¬ NameUnique (runCalls emptyPool duplicateNameCalls) := by
  intro h
  have := h "a"
  rw [duplicateName_state] at this
  revert this
  decide

/-- C2 (as amended): in every pool state reached from the empty pool by a
sequence of CreateControl, DestroyControl and InformDestroyed calls during
which at most 2^32 client objects were constructed, no unique id occurs in more
than one of active, inactive and pending-delete. -/
theorem idDisjoint_of_calls (calls : List Call)
    (hb : (runCalls emptyPool calls).heap.length ≤ idSpace) :
    IdDisjoint (runCalls emptyPool calls) :=
  idDisjoint_of_separated
    (runCalls_separated calls sound_emptyPool separated_emptyPool hb)

theorem idDisjoint_of_calls_witness :
    (runCalls emptyPool
        [Call.Create "a" "x" 1 true, Call.Create "b" "y" 2 true, Call.Destroy (some 0) false [],
         Call.Destroy (some 1) true []]).heap.length ≤ idSpace ∧
      IdDisjoint (runCalls emptyPool
        [Call.Create "a" "x" 1 true, Call.Create "b" "y" 2 true, Call.Destroy (some 0) false [],
         Call.Destroy (some 1) true []]) :=
  ⟨by decide, idDisjoint_of_calls _ (by decide)⟩

/-- C2 (as stated) fails: once the 32 bit id counter has wrapped around, the
calls of `reusedIdCalls` leave the id 0 both as a key of the active map and as
a member of the pending-delete set. -/
theorem idDisjoint_fails_after_id_reuse :
    ¬ IdDisjoint (runCalls emptyPool reusedIdCalls) := by
  intro h
  obtain ⟨hact, hdel⟩ := reusedId_state
  apply (h 0).2.1
  rw [hact, hdel]
  exact ⟨by simp, by simp⟩

/-! ## Single calls -/

/-- C3 (as amended): in a started pool, for an instance under whose id the
active map has no entry, DestroyControl with complete = false logs an error and
returns false, while DestroyControl with complete = true is not rejected and
returns true. -/
theorem release_of_not_active (s : CWebBrowser) (c : CWebBrowserClient)
    (hst : s.m_started = true) (hnot : mapFind c.uniqueId s.m_browserClients = none)
    (destroyed : List Int) :
    (DestroyControl s (some c) false destroyed).1 = false ∧
    (DestroyControl s (some c) false destroyed).2.events =
      s.events ++ [Event.SetInactive c.address, Event.LogError LogMessage.destroyInvalidId] ∧
    (DestroyControl s (some c) true destroyed).1 = true := by
  rw [DestroyControl_missing hst hnot, DestroyControl_complete hst]
  simp

theorem release_of_not_active_witness :
    parkedPool.m_started = true ∧
    mapFind parkedClient.uniqueId parkedPool.m_browserClients = none ∧
    (DestroyControl parkedPool (some parkedClient) false []).1 = false ∧
    (DestroyControl parkedPool (some parkedClient) false []).2.events =
      parkedPool.events ++
        [Event.SetInactive parkedClient.address, Event.LogError LogMessage.destroyInvalidId] ∧
    (DestroyControl parkedPool (some parkedClient) true []).1 = true :=
  ⟨by decide, by decide,
    release_of_not_active parkedPool parkedClient (by decide) (by decide) []⟩

/-- C3 (as stated) fails: a parked control is not in the active map, yet its
complete release returns true. -/
theorem release_complete_of_parked_returns_true :
    mapFind parkedClient.uniqueId parkedPool.m_browserClients = none ∧
    (DestroyControl parkedPool (some parkedClient) true []).1 = true := by
  decide

/-- C4: in a started pool in which instance `c` is active, DestroyControl with
complete = false followed by CreateControl under the name of `c`, with any
start URL, handle and engine result, returns `c` itself, leaves the id counter
and the set of constructed objects as they were, leaves no entry for the name
in inactive, has `c` back in active under its id, and the returned instance
still carries the start URL `c` was constructed with. -/
theorem reactivation_returns_same_instance (s : CWebBrowser) (c : CWebBrowserClient)
    (hst : s.m_started = true) (hin : mapFind c.uniqueId s.m_browserClients = some c)
    (startURL : String) (handle : Nat) (ok : Bool) (destroyed : List Int) :
    (DestroyControl s (some c) false destroyed).1 = true ∧
    (CreateControl (DestroyControl s (some c) false destroyed).2 c.name startURL handle ok).1 = some c ∧
    (CreateControl (DestroyControl s (some c) false destroyed).2 c.name startURL handle ok).2.m_iUniqueClientId
      = s.m_iUniqueClientId ∧
    (CreateControl (DestroyControl s (some c) false destroyed).2 c.name startURL handle ok).2.heap = s.heap ∧
    mapFind c.name
      (CreateControl (DestroyControl s (some c) false destroyed).2 c.name startURL handle
        ok).2.m_browserClientsInactive = none ∧
    mapFind c.uniqueId
      (CreateControl (DestroyControl s (some c) false destroyed).2 c.name startURL handle
        ok).2.m_browserClients = some c ∧
    ((CreateControl (DestroyControl s (some c) false destroyed).2 c.name startURL handle ok).1.map
      CWebBrowserClient.startURL) = some c.startURL := by
  rw [DestroyControl_park hst hin]
  have hf : mapFind c.name (mapAssign c.name c s.m_browserClientsInactive) = some c :=
    mapFind_mapAssign_self _ _ _
  have hre := CreateControl_reactivate
    (s := { s with
      m_browserClients := mapErase c.uniqueId s.m_browserClients
      m_browserClientsInactive := mapAssign c.name c s.m_browserClientsInactive
      events := s.events ++ [Event.SetInactive c.address] })
    hst hf startURL handle ok
  rw [hre]
  refine ⟨rfl, rfl, rfl, rfl, mapFind_mapErase_self _ _, ?_, rfl⟩
  simp only
  rw [mapEmplace_of_none c (mapFind_mapErase_self _ _), mapFind_append, mapFind_mapErase_self]
  simp [mapFind]

theorem reactivation_returns_same_instance_witness :
    tabPool.m_started = true ∧
    mapFind tabClient.uniqueId tabPool.m_browserClients = some tabClient ∧
    (DestroyControl tabPool (some tabClient) false []).1 = true ∧
    (CreateControl (DestroyControl tabPool (some tabClient) false []).2 "tab1" "http://y" 2 true).1 =
      some tabClient ∧
    ((CreateControl (DestroyControl tabPool (some tabClient) false []).2 "tab1" "http://y" 2 true).1.map
      CWebBrowserClient.startURL) = some "http://x" :=
  have h := reactivation_returns_same_instance tabPool tabClient (by decide) (by decide)
    "http://y" 2 true []
  ⟨by decide, by decide, h.1, h.2.1, h.2.2.2.2.2.2⟩

/-- C6 (as amended): in a started pool, for an instance `c` that is in active,
or parked in inactive under its name, DestroyControl with complete = true
returns true, and afterwards the id of `c` is not a key of active, inactive has
no entry for the name of `c`, and pending-delete holds the ids it held before
and the id of `c`, less the ids the engine reported destroyed during the pump
that ends the call; CloseComplete and that one pump were issued. -/
theorem complete_release (s : CWebBrowser) (c : CWebBrowserClient) (hst : s.m_started = true)
    (_hin : mapFind c.uniqueId s.m_browserClients = some c ∨
      mapFind c.name s.m_browserClientsInactive = some c) (destroyed : List Int) :
    (DestroyControl s (some c) true destroyed).1 = true ∧
    mapFind c.uniqueId (DestroyControl s (some c) true destroyed).2.m_browserClients = none ∧
    mapFind c.name (DestroyControl s (some c) true destroyed).2.m_browserClientsInactive = none ∧
    (∀ x : Int, x ∈ (DestroyControl s (some c) true destroyed).2.m_browserClientsInDelete ↔
      (x ∈ s.m_browserClientsInDelete ∨ x = c.uniqueId) ∧ x ∉ destroyed) ∧
    (DestroyControl s (some c) true destroyed).2.events =
      s.events ++ [Event.SetInactive c.address, Event.CloseComplete c.address,
        Event.CefDoMessageLoopWork] := by
  rw [DestroyControl_complete hst]
  refine ⟨rfl, mapFind_mapErase_self _ _, mapFind_mapErase_self _ _, ?_, ?_⟩
  · intro x
    simp only
    rw [mem_eraseAll, mem_setInsert]
  · simp

theorem complete_release_witness :
    parkedPool.m_started = true ∧
    mapFind parkedClient.name parkedPool.m_browserClientsInactive = some parkedClient ∧
    (DestroyControl parkedPool (some parkedClient) true []).1 = true ∧
    mapFind parkedClient.uniqueId
      (DestroyControl parkedPool (some parkedClient) true []).2.m_browserClients = none ∧
    mapFind parkedClient.name
      (DestroyControl parkedPool (some parkedClient) true []).2.m_browserClientsInactive = none ∧
    parkedClient.uniqueId ∈
      (DestroyControl parkedPool (some parkedClient) true []).2.m_browserClientsInDelete :=
  have h := complete_release parkedPool parkedClient (by decide) (Or.inr (by decide)) []
  ⟨by decide, by decide, h.1, h.2.1, h.2.2.1,
    (h.2.2.2.1 parkedClient.uniqueId).2 ⟨Or.inr rfl, List.not_mem_nil _⟩⟩

/-- C6 (as stated) fails: when the engine reports the released control
destroyed during the pump that ends DestroyControl, its id is no longer a
member of pending-delete when the call returns. -/
theorem complete_release_id_gone_after_pump :
    mapFind parkedClient.name parkedPool.m_browserClientsInactive = some parkedClient ∧
    (DestroyControl parkedPool (some parkedClient) true [parkedClient.uniqueId]).1 = true ∧
    parkedClient.uniqueId ∉
      (DestroyControl parkedPool (some parkedClient) true
        [parkedClient.uniqueId]).2.m_browserClientsInDelete := by
  decide

/-- C7: in a started pool, for an instance `c` present in active,
DestroyControl with complete = false returns true, removes the entry of `c`
from active, leaves `c` in inactive under its name, leaves pending-delete as it
was, and leaves every other active and inactive entry as it was. -/
theorem parking_release (s : CWebBrowser) (c : CWebBrowserClient) (hst : s.m_started = true)
    (hin : mapFind c.uniqueId s.m_browserClients = some c) (destroyed : List Int) :
    (DestroyControl s (some c) false destroyed).1 = true ∧
    mapFind c.uniqueId (DestroyControl s (some c) false destroyed).2.m_browserClients = none ∧
    mapFind c.name (DestroyControl s (some c) false destroyed).2.m_browserClientsInactive =
      some c ∧
    (DestroyControl s (some c) false destroyed).2.m_browserClientsInDelete =
      s.m_browserClientsInDelete ∧
    (∀ id : Int, id ≠ c.uniqueId →
      mapFind id (DestroyControl s (some c) false destroyed).2.m_browserClients =
        mapFind id s.m_browserClients) ∧
    (∀ n : String, n ≠ c.name →
      mapFind n (DestroyControl s (some c) false destroyed).2.m_browserClientsInactive =
        mapFind n s.m_browserClientsInactive) := by
  rw [DestroyControl_park hst hin]
  exact ⟨rfl, mapFind_mapErase_self _ _, mapFind_mapAssign_self _ _ _, rfl,
    fun id hid => mapFind_mapErase_ne hid _, fun n hn => mapFind_mapAssign_ne hn _ _⟩

theorem parking_release_witness :
    tabPool.m_started = true ∧
    mapFind tabClient.uniqueId tabPool.m_browserClients = some tabClient ∧
    (DestroyControl tabPool (some tabClient) false []).1 = true ∧
    mapFind tabClient.uniqueId
      (DestroyControl tabPool (some tabClient) false []).2.m_browserClients = none ∧
    mapFind tabClient.name
      (DestroyControl tabPool (some tabClient) false []).2.m_browserClientsInactive =
        some tabClient :=
  have h := parking_release tabPool tabClient (by decide) (by decide) []
  ⟨by decide, by decide, h.1, h.2.1, h.2.2.1⟩

/-! ## Acquiring twice -/

theorem find?_append_last {p : Int × CWebBrowserClient → Bool}
    {m : List (Int × CWebBrowserClient)} {e : Int × CWebBrowserClient}
    (hm : m.find? p = none) (he : p e = true) : (m ++ [e]).find? p = some e := by
  rw [List.find?_append, hm]
  simp [List.find?, he]

theorem CreateControl_twice {s : CWebBrowser} (hs : Sound s) (hp : Separated s)
    (hb : s.heap.length < idSpace) (n u : String) (h : Nat) (ok : Bool)
    (c : CWebBrowserClient) (hret : (CreateControl s n u h ok).1 = some c)
    (u2 : String) (h2 : Nat) (ok2 : Bool) :
    CreateControl (CreateControl s n u h ok).2 n u2 h2 ok2 =
      (some c, (CreateControl s n u h ok).2) := by
  rcases CreateControl_cases s n with ⟨d, hf⟩ | ⟨hf, e, he⟩ | ⟨hf, he⟩
  · rw [CreateControl_reactivate hs.started hf] at hret ⊢
    have hdc : d = c := Option.some.inj hret
    subst hdc
    have hmem := mapFind_some_mem hf
    have hname : n = d.name := (hs.inactiveKey _ hmem).1
    have hnone : mapFind d.uniqueId s.m_browserClients = none :=
      (mapFind_eq_none_iff _ _).2 (fun a ha => hp.activeInactive a ha _ hmem)
    have hfind : s.m_browserClients.find? (fun entry => decide (entry.2.name = n)) = none := by
      rw [List.find?_eq_none]
      intro a ha
      have := hp.names a ha _ hmem
      simpa [hname] using this
    simp only [mapEmplace_of_none d hnone]
    exact CreateControl_existing
      (s := { s with
        events := s.events ++ [Event.SetActive d.address]
        m_browserClientsInactive := mapErase n s.m_browserClientsInactive
        m_browserClients := s.m_browserClients ++ [(d.uniqueId, d)] })
      (e := (d.uniqueId, d)) hs.started (mapFind_mapErase_self _ _)
      (find?_append_last hfind (by simp [hname])) u2 h2 ok2
  · rw [CreateControl_existing hs.started hf he] at hret ⊢
    have := CreateControl_existing hs.started hf he u2 h2 ok2
    rw [this]
    simp only at hret
    rw [hret]
  · cases ok with
    | false =>
      rw [CreateControl_failed hs.started hf he] at hret
      exact Option.noConfusion hret
    | true =>
      rw [CreateControl_new hs.started hf he] at hret ⊢
      have hdc : newClient s n u h = c := Option.some.inj hret
      have hfresh : mapFind s.m_iUniqueClientId s.m_browserClients = none := by
        rw [mapFind_eq_none_iff]
        intro a ha heq
        have := hs.activeKey a ha
        exact fresh_id_not_in_heap hs hb this.2 (this.1 ▸ heq)
      simp only [mapEmplace_of_none _ hfresh]
      rw [← hdc]
      exact CreateControl_existing
        (s := { s with
          m_iUniqueClientId := wrapInt32 (s.m_iUniqueClientId + 1)
          heap := s.heap ++ [newClient s n u h]
          m_browserClients := s.m_browserClients ++ [(s.m_iUniqueClientId, newClient s n u h)] })
        (e := (s.m_iUniqueClientId, newClient s n u h)) hs.started hf
        (find?_append_last he (by simp [newClient])) u2 h2 ok2

/-- C5 (as amended): in every pool state reached from the empty pool by calls
during which fewer than 2^32 client objects were constructed, if CreateControl
succeeds for a name and is at once called again with the same name (any start
URL, handle and engine result), the second call returns the same instance and
leaves the whole state, with it the id counter and the three containers, as
the first call left it. -/
theorem acquire_twice_same_instance (calls : List Call)
    (hb : (runCalls emptyPool calls).heap.length < idSpace)
    (n u : String) (h : Nat) (ok : Bool) (c : CWebBrowserClient)
    (hret : (CreateControl (runCalls emptyPool calls) n u h ok).1 = some c)
    (u2 : String) (h2 : Nat) (ok2 : Bool) :
    (CreateControl (CreateControl (runCalls emptyPool calls) n u h ok).2 n u2 h2 ok2).1 = some c ∧
    (CreateControl (CreateControl (runCalls emptyPool calls) n u h ok).2 n u2 h2 ok2).2 =
      (CreateControl (runCalls emptyPool calls) n u h ok).2 := by
  have hs := runCalls_sound calls sound_emptyPool
  have hp := runCalls_separated calls sound_emptyPool separated_emptyPool (Nat.le_of_lt hb)
  rw [CreateControl_twice hs hp hb n u h ok c hret u2 h2 ok2]
  exact ⟨rfl, rfl⟩

theorem acquire_twice_same_instance_witness :
    (runCalls emptyPool [Call.Create "a" "x" 1 true, Call.Destroy (some 0) false []]).heap.length
      < idSpace ∧
    (CreateControl (runCalls emptyPool [Call.Create "a" "x" 1 true, Call.Destroy (some 0) false []])
      "a" "y" 2 true).1 = some parkedClient ∧
    (CreateControl (CreateControl
      (runCalls emptyPool [Call.Create "a" "x" 1 true, Call.Destroy (some 0) false []])
      "a" "y" 2 true).2 "a" "z" 3 true).1 = some parkedClient :=
  ⟨by decide, by decide,
    (acquire_twice_same_instance
      [Call.Create "a" "x" 1 true, Call.Destroy (some 0) false []] (by decide)
      "a" "y" 2 true parkedClient (by decide) "z" 3 true).1⟩

/-- C5 (as stated) fails: after `wrappedCalls` the id counter is back at 0, the
key of the active first control. CreateControl "c" constructs a control with
id 0, which `emplace` does not register; the same call made again constructs
yet another control. -/
theorem acquire_twice_differs_after_id_reuse :
    (CreateControl (runCalls emptyPool wrappedCalls) "c" "y" 0 true).1 =
      some { address := 4294967296, uniqueId := 0, name := "c", startURL := "y", handle := 0 } ∧
    (CreateControl (CreateControl (runCalls emptyPool wrappedCalls) "c" "y" 0 true).2
        "c" "y" 0 true).1 =
      some { address := 4294967297, uniqueId := 1, name := "c", startURL := "y", handle := 0 } := by
  have hw := wrappedCalls_state
  generalize runCalls emptyPool wrappedCalls = t at hw
  obtain ⟨st, cnt, A, I, P, H, E⟩ := t
  have h1 := hw.started
  have h2 := hw.counter
  have h3 := hw.active
  have h4 := hw.inactive
  have h5 := hw.length
  simp only at h1 h2 h3 h4 h5
  subst h1 h2 h3 h4
  simp [CreateControl, registerControl, mapFind, mapEmplace, firstClient, wrapInt32, h5]

/-! ## Shutdown -/

theorem foldl_InformDestroyed_events (ids : List Int) (s : CWebBrowser) :
    (ids.foldl InformDestroyed s).events = s.events := by
  induction ids generalizing s with
  | nil => rfl
  | cons id ids ih => exact ih (InformDestroyed s id)

theorem pumpMessageLoop_events (s : CWebBrowser) (ids : List Int) :
    (pumpMessageLoop s ids).events = s.events ++ [Event.CefDoMessageLoopWork] := by
  unfold pumpMessageLoop
  rw [foldl_InformDestroyed_events]

theorem waitForDelete_events (pump : Nat → List Int) (tries : Nat) :
    ∀ (done : Nat) (s : CWebBrowser), ∃ k : Nat, k ≤ tries ∧
      (waitForDelete pump tries done s).2 = done + k ∧
      (waitForDelete pump tries done s).1.events =
        s.events ++ List.replicate k Event.CefDoMessageLoopWork := by
  induction tries with
  | zero =>
    intro done s
    exact ⟨0, Nat.le_refl _, rfl, by simp [waitForDelete]⟩
  | succ tries ih =>
    intro done s
    unfold waitForDelete
    split
    · exact ⟨0, Nat.zero_le _, rfl, by simp⟩
    · obtain ⟨k, hk, hdone, hev⟩ := ih (done + 1) (pumpMessageLoop s (pump done))
      refine ⟨k + 1, Nat.succ_le_succ hk, by rw [hdone]; omega, ?_⟩
      rw [hev, pumpMessageLoop_events, List.append_assoc]
      congr 1

theorem MainShutdown_eq (s : CWebBrowser) (pump : Nat → List Int) (hst : s.m_started = true) :
    MainShutdown s pump =
      shutdownEnd (pumpMessageLoop (waitForDelete pump 1000 0 (shutdownStart s)).1
        (pump (waitForDelete pump 1000 0 (shutdownStart s)).2)) := by
  unfold MainShutdown shutdownEnd shutdownStart
  rw [if_neg (by simp [hst])]

theorem shutdownEnd_events (s : CWebBrowser) :
    (shutdownEnd s).m_browserClientsInDelete = s.m_browserClientsInDelete ∧
    (shutdownEnd s).events = s.events ++
      [if s.m_browserClientsInDelete = [] then Event.CefShutdown
       else Event.LogFatal LogMessage.browsersNotDeleted] := by
  unfold shutdownEnd
  cases h : s.m_browserClientsInDelete with
  | nil => simp
  | cons x l => simp

theorem shutdownStart_events (s : CWebBrowser) :
    ∃ l : List Event, (∀ e ∈ l, e = Event.LogFatal LogMessage.clientsStillInUse) ∧
      (shutdownStart s).events = s.events ++ l := by
  unfold shutdownStart
  split
  · exact ⟨[Event.LogFatal LogMessage.clientsStillInUse], by simp, rfl⟩
  · exact ⟨[], by simp, by simp⟩

/-- The calls `MainShutdown` makes: an optional fatal line about clients still
in use, the pumps of the wait loop, the last pump, and then either
`CefShutdown` or the fatal line about browsers not deleted, depending on
whether the pending-delete set is empty at that point. -/
theorem MainShutdown_events (s : CWebBrowser) (pump : Nat → List Int)
    (hst : s.m_started = true) :
    ∃ mid : List Event,
      (∀ e ∈ mid, e = Event.LogFatal LogMessage.clientsStillInUse ∨
        e = Event.CefDoMessageLoopWork) ∧
      (MainShutdown s pump).events = s.events ++ mid ++
        [if (MainShutdown s pump).m_browserClientsInDelete = [] then Event.CefShutdown
         else Event.LogFatal LogMessage.browsersNotDeleted] := by
  rw [MainShutdown_eq s pump hst]
  obtain ⟨l, hl, hs1ev⟩ := shutdownStart_events s
  obtain ⟨k, _, _, hev⟩ := waitForDelete_events pump 1000 0 (shutdownStart s)
  refine ⟨l ++ List.replicate k Event.CefDoMessageLoopWork ++ [Event.CefDoMessageLoopWork],
    ?_, ?_⟩
  · intro e he
    simp only [List.mem_append, List.mem_replicate, List.mem_singleton] at he
    rcases he with (h1 | h1) | h1
    · exact Or.inl (hl e h1)
    · exact Or.inr h1.2
    · exact Or.inr h1
  · rw [(shutdownEnd_events _).1, (shutdownEnd_events _).2, pumpMessageLoop_events, hev, hs1ev]
    simp only [List.append_assoc]

/-- C8 (as amended): for every started pool state and every behaviour of the
message-loop pump, if pending-delete is still non-empty after the last pump of
MainShutdown, MainShutdown logs fatal and does not call CefShutdown; CefShutdown
is called, and that fatal line is not logged, exactly when pending-delete is
empty at that point. -/
theorem shutdown_outcome (s : CWebBrowser) (pump : Nat → List Int) (hst : s.m_started = true) :
    ((MainShutdown s pump).m_browserClientsInDelete ≠ [] →
      Event.LogFatal LogMessage.browsersNotDeleted ∈ emitted s (MainShutdown s pump) ∧
      Event.CefShutdown ∉ emitted s (MainShutdown s pump)) ∧
    ((MainShutdown s pump).m_browserClientsInDelete = [] →
      Event.CefShutdown ∈ emitted s (MainShutdown s pump) ∧
      Event.LogFatal LogMessage.browsersNotDeleted ∉ emitted s (MainShutdown s pump)) := by
  obtain ⟨mid, hmid, hev⟩ := MainShutdown_events s pump hst
  have hem : emitted s (MainShutdown s pump) = mid ++
      [if (MainShutdown s pump).m_browserClientsInDelete = [] then Event.CefShutdown
       else Event.LogFatal LogMessage.browsersNotDeleted] := by
    unfold emitted
    rw [hev, List.append_assoc, List.drop_left]
  rw [hem]
  constructor
  · intro hne
    rw [if_neg hne]
    simp only [List.mem_append, List.mem_singleton]
    refine ⟨Or.inr trivial, ?_⟩
    rintro (h1 | h1)
    · rcases hmid _ h1 with h2 | h2 <;> exact Event.noConfusion h2
    · exact Event.noConfusion h1
  · intro hnil
    rw [if_pos hnil]
    simp only [List.mem_append, List.mem_singleton]
    refine ⟨Or.inr trivial, ?_⟩
    rintro (h1 | h1)
    · rcases hmid _ h1 with h2 | h2
      · exact LogMessage.noConfusion (Event.LogFatal.inj h2)
      · exact Event.noConfusion h2
    · exact Event.noConfusion h1

theorem pumpMessageLoop_idle (s : CWebBrowser) (k : Nat) :
    (pumpMessageLoop s (idlePump k)).m_browserClientsInDelete = s.m_browserClientsInDelete :=
  rfl

theorem waitForDelete_idle (tries : Nat) : ∀ (done : Nat) (s : CWebBrowser),
    s.m_browserClientsInDelete ≠ [] →
    (waitForDelete idlePump tries done s).2 = done + tries ∧
    (waitForDelete idlePump tries done s).1.m_browserClientsInDelete =
      s.m_browserClientsInDelete := by
  induction tries with
  | zero =>
    intro done s _
    exact ⟨rfl, rfl⟩
  | succ tries ih =>
    intro done s hne
    unfold waitForDelete
    have hemp : s.m_browserClientsInDelete.isEmpty = false := by
      cases h : s.m_browserClientsInDelete with
      | nil => exact absurd h hne
      | cons x l => rfl
    rw [hemp]
    have hsame := pumpMessageLoop_idle s done
    obtain ⟨h1, h2⟩ := ih (done + 1) (pumpMessageLoop s (idlePump done)) (by rw [hsame]; exact hne)
    simp only [Bool.false_eq_true, if_false]
    exact ⟨by rw [h1]; omega, h2.trans hsame⟩

/-- C8 (as stated) fails: with an engine that never reports the pending control
destroyed, the wait loop uses up its 1000 tries with pending-delete still
non-empty, and MainShutdown then logs fatal but does not call CefShutdown. -/
theorem shutdown_not_drained_skips_CefShutdown :
    (waitForDelete idlePump 1000 0 stuckPool).2 = 1000 ∧
    (waitForDelete idlePump 1000 0 stuckPool).1.m_browserClientsInDelete ≠ [] ∧
    Event.LogFatal LogMessage.browsersNotDeleted ∈ (MainShutdown stuckPool idlePump).events ∧
    Event.CefShutdown ∉ (MainShutdown stuckPool idlePump).events := by
  have hne : stuckPool.m_browserClientsInDelete ≠ [] := by decide
  have hstart : shutdownStart stuckPool = stuckPool := by decide
  obtain ⟨h1, h2⟩ := waitForDelete_idle 1000 0 stuckPool hne
  have hfinal : (MainShutdown stuckPool idlePump).m_browserClientsInDelete ≠ [] := by
    rw [MainShutdown_eq stuckPool idlePump (by decide), (shutdownEnd_events _).1, hstart]
    rw [pumpMessageLoop_idle, h2]
    exact hne
  obtain ⟨mid, hmid, hev⟩ := MainShutdown_events stuckPool idlePump (by decide)
  rw [if_neg hfinal] at hev
  refine ⟨by rw [h1], by rw [h2]; exact hne, ?_, ?_⟩
  · rw [hev]
    simp
  · rw [hev]
    simp only [List.mem_append, List.mem_singleton]
    rintro ((h3 | h3) | h3)
    · revert h3
      decide
    · rcases hmid _ h3 with h4 | h4 <;> exact Event.noConfusion h4
    · exact Event.noConfusion h3

theorem shutdown_outcome_witness :
    stuckPool.m_started = true ∧
    (MainShutdown stuckPool (fun k => if k = 2 then [0] else [])).m_browserClientsInDelete = [] ∧
    Event.CefShutdown ∈
      emitted stuckPool (MainShutdown stuckPool (fun k => if k = 2 then [0] else [])) :=
  ⟨by decide, by decide,
    ((shutdown_outcome stuckPool (fun k => if k = 2 then [0] else []) (by decide)).2
      (by decide)).1⟩

/-! ## Release of an instance that is not active -/

theorem nameUnique_of_sublist {s t : CWebBrowser}
    (ha : t.m_browserClients.Sublist s.m_browserClients)
    (hi : t.m_browserClientsInactive.Sublist s.m_browserClientsInactive)
    (h : NameUnique s) : NameUnique t := by
  intro n
  refine Nat.le_trans (List.Sublist.count_le ?_ n) (h n)
  unfold pooled
  exact ((ha.map _).append (hi.map _)).map _

theorem idDisjoint_of_same_maps {s t : CWebBrowser}
    (ha : t.m_browserClients = s.m_browserClients)
    (hi : t.m_browserClientsInactive = s.m_browserClientsInactive)
    (hd : t.m_browserClientsInDelete = s.m_browserClientsInDelete)
    (h : IdDisjoint s) : IdDisjoint t := by
  unfold IdDisjoint at h ⊢
  rw [ha, hi, hd]
  exact h

/-- After a complete release of an instance that has no entry in active, ids
stay disjoint as long as no instance parked under another name carries the id
of the released one. -/
theorem idDisjoint_complete_release {s : CWebBrowser} {c : CWebBrowserClient}
    (hst : s.m_started = true) (hnot : mapFind c.uniqueId s.m_browserClients = none)
    (hkey : ∀ e ∈ s.m_browserClientsInactive, e.2.uniqueId = c.uniqueId → e.1 = c.name)
    (destroyed : List Int) (h : IdDisjoint s) :
    IdDisjoint (DestroyControl s (some c) true destroyed).2 := by
  rw [DestroyControl_complete hst]
  intro id
  obtain ⟨h1, h2, h3⟩ := h id
  simp only [mapErase_eq_self hnot]
  refine ⟨?_, ?_, ?_⟩
  · rintro ⟨ha, hi⟩
    apply h1
    refine ⟨ha, ?_⟩
    obtain ⟨e, he, hid⟩ := List.mem_map.1 hi
    exact List.mem_map.2 ⟨e, (mem_mapErase.1 he).1, hid⟩
  · rintro ⟨ha, hd⟩
    rcases mem_setInsert.1 ((mem_eraseAll _ _ _).1 hd).1 with hd1 | hd1
    · exact h2 ⟨ha, hd1⟩
    · obtain ⟨e, he, hid⟩ := List.mem_map.1 ha
      exact (mapFind_eq_none_iff _ _).1 hnot e he (hid.trans hd1)
  · rintro ⟨hi, hd⟩
    obtain ⟨e, he, hid⟩ := List.mem_map.1 hi
    have he1 := mem_mapErase.1 he
    rcases mem_setInsert.1 ((mem_eraseAll _ _ _).1 hd).1 with hd1 | hd1
    · exact h3 ⟨List.mem_map.2 ⟨e, he1.1, hid⟩, hd1⟩
    · exact he1.2 (hkey e he1.1 (hid.trans hd1))

/-- C9 (as amended): in a started pool, for an instance under whose id the
active map has no entry: DestroyControl with complete = false returns false and
leaves active, inactive and pending-delete exactly as they were, so that name
uniqueness and id disjointness still hold afterwards. DestroyControl with
complete = true leaves active exactly as it was, erases from inactive the entry
under the name of the instance and no other, and leaves pending-delete as it
was but for the id of the instance, which is inserted, and the ids reported
destroyed during the pump of the call, which are erased; name uniqueness still
holds afterwards, and so does id disjointness as long as no instance parked
under another name carries the id of the released one, which is so in every
state reached from the empty pool with at most 2^32 client objects constructed. -/
theorem rejected_release_keeps_pool (s : CWebBrowser) (c : CWebBrowserClient)
    (hst : s.m_started = true) (hnot : mapFind c.uniqueId s.m_browserClients = none)
    (destroyed : List Int) :
    ((DestroyControl s (some c) false destroyed).1 = false ∧
      (DestroyControl s (some c) false destroyed).2.m_browserClients = s.m_browserClients ∧
      (DestroyControl s (some c) false destroyed).2.m_browserClientsInactive =
        s.m_browserClientsInactive ∧
      (DestroyControl s (some c) false destroyed).2.m_browserClientsInDelete =
        s.m_browserClientsInDelete ∧
      (NameUnique s → NameUnique (DestroyControl s (some c) false destroyed).2) ∧
      (IdDisjoint s → IdDisjoint (DestroyControl s (some c) false destroyed).2)) ∧
    ((DestroyControl s (some c) true destroyed).2.m_browserClients = s.m_browserClients ∧
      (DestroyControl s (some c) true destroyed).2.m_browserClientsInactive =
        mapErase c.name s.m_browserClientsInactive ∧
      (DestroyControl s (some c) true destroyed).2.m_browserClientsInDelete =
        eraseAll destroyed (setInsert c.uniqueId s.m_browserClientsInDelete) ∧
      (NameUnique s → NameUnique (DestroyControl s (some c) true destroyed).2) ∧
      ((∀ e ∈ s.m_browserClientsInactive, e.2.uniqueId = c.uniqueId → e.1 = c.name) →
        IdDisjoint s → IdDisjoint (DestroyControl s (some c) true destroyed).2) ∧
      (∀ calls : List Call, s = runCalls emptyPool calls → s.heap.length ≤ idSpace →
        c ∈ s.heap →
        NameUnique (DestroyControl s (some c) true destroyed).2 ∧
        IdDisjoint (DestroyControl s (some c) true destroyed).2)) := by
  constructor
  · rw [DestroyControl_missing hst hnot]
    refine ⟨rfl, mapErase_eq_self hnot, rfl, rfl, ?_, ?_⟩
    · exact nameUnique_of_sublist (mapErase_sublist _ _) (List.Sublist.refl _)
    · exact idDisjoint_of_same_maps (mapErase_eq_self hnot) rfl rfl
  · refine ⟨?_, ?_, ?_, ?_, ?_, ?_⟩
    · rw [DestroyControl_complete hst]
      exact mapErase_eq_self hnot
    · rw [DestroyControl_complete hst]
    · rw [DestroyControl_complete hst]
    · rw [DestroyControl_complete hst]
      exact nameUnique_of_sublist (mapErase_sublist _ _) (mapErase_sublist _ _)
    · exact fun hkey h => idDisjoint_complete_release hst hnot hkey destroyed h
    · intro calls hreach hb hc
      have hs : Sound s := hreach ▸ runCalls_sound calls sound_emptyPool
      have hp : Separated s := by
        subst hreach
        exact runCalls_separated calls sound_emptyPool separated_emptyPool hb
      have hp1 : Separated (DestroyControl s (some c) true destroyed).2 :=
        DestroyControl_separated hs hp hb hc true
      exact ⟨nameUnique_of_separated (DestroyControl_sound hs hc true) hp1,
        idDisjoint_of_separated hp1⟩

theorem rejected_release_keeps_pool_witness :
    namesakePool.m_started = true ∧
    mapFind releasedClient.uniqueId namesakePool.m_browserClients = none ∧
    (DestroyControl namesakePool (some releasedClient) false []).1 = false ∧
    (DestroyControl namesakePool (some releasedClient) false []).2.m_browserClientsInactive =
      namesakePool.m_browserClientsInactive ∧
    (DestroyControl namesakePool (some releasedClient) true []).2.m_browserClients =
      namesakePool.m_browserClients ∧
    IdDisjoint (DestroyControl namesakePool (some releasedClient) true []).2 :=
  have h := rejected_release_keeps_pool namesakePool releasedClient (by decide) (by decide) []
  ⟨by decide, by decide, h.1.1, h.1.2.2.1, h.2.1,
    (h.2.2.2.2.2.2
      [Call.Create "a" "x" 1 true, Call.Destroy (some 0) true [], Call.Create "a" "y" 2 true,
       Call.Destroy (some 1) false []] rfl (by decide) (by decide)).2⟩

/-- C9 (as stated) fails for complete = true. The first control of
`namesakePool` is already in pending-delete and not in active; releasing it
completely once more removes its parked namesake, a different instance, from
the inactive map. And a complete release of the parked control of `parkedPool`,
which is not in active either, inserts its id into pending-delete. -/
theorem repeated_complete_release_evicts_namesake :
    mapFind releasedClient.uniqueId namesakePool.m_browserClients = none ∧
    mapFind "a" namesakePool.m_browserClientsInactive =
      some { address := 1, uniqueId := 1, name := "a", startURL := "y", handle := 2 } ∧
    mapFind "a"
      (DestroyControl namesakePool (some releasedClient) true []).2.m_browserClientsInactive =
      none ∧
    mapFind parkedClient.uniqueId parkedPool.m_browserClients = none ∧
    parkedPool.m_browserClientsInDelete = [] ∧
    (DestroyControl parkedPool (some parkedClient) true []).2.m_browserClientsInDelete =
      [parkedClient.uniqueId] := by
  decide

/-! ## CloseComplete -/

theorem count_append_other (l : List Event) (e x : Event) (h : x ≠ e) :
    (l ++ [x]).count e = l.count e := by
  rw [List.count_append, List.count_singleton]
  simp [h]

theorem CreateControl_closeCount (s : CWebBrowser) (n u : String) (h : Nat) (ok : Bool)
    (a : Nat) : closeCount (CreateControl s n u h ok).2 a = closeCount s a := by
  cases hst : s.m_started with
  | false => simp [CreateControl, hst]
  | true =>
    rcases CreateControl_cases s n with ⟨c, hf⟩ | ⟨hf, e, he⟩ | ⟨hf, he⟩
    · rw [CreateControl_reactivate hst hf]
      exact count_append_other _ _ _ (fun h => Event.noConfusion h)
    · rw [CreateControl_existing hst hf he]
    · cases ok with
      | false =>
        rw [CreateControl_failed hst hf he]
        exact count_append_other _ _ _ (fun h => Event.noConfusion h)
      | true => rw [CreateControl_new hst hf he]; rfl

theorem DestroyControl_closeCount {destroyed : List Int}
    (s : CWebBrowser) (hst : s.m_started = true)
    (c : CWebBrowserClient) (complete : Bool) (a : Nat) :
    closeCount (DestroyControl s (some c) complete destroyed).2 a =
      closeCount s a + (if complete = true ∧ c.address = a then 1 else 0) := by
  cases complete with
  | true =>
    rw [DestroyControl_complete hst]
    unfold closeCount
    simp only [List.count_append, List.count_cons, List.count_nil]
    by_cases hca : c.address = a <;> simp [hca]
  | false =>
    cases hf : mapFind c.uniqueId s.m_browserClients with
    | none =>
      rw [DestroyControl_missing hst hf]
      unfold closeCount
      simp [List.count_append, List.count_cons]
    | some d =>
      rw [DestroyControl_park hst hf]
      unfold closeCount
      simp [List.count_append, List.count_cons]

theorem closeCount_le_one_of_calls (calls : List Call) : ∀ (s : CWebBrowser), Sound s →
    Separated s → (runCalls s calls).heap.length ≤ idSpace → releasesPooled s calls = true →
    (∀ a : Nat, closeCount s a ≤ 1) → ∀ a : Nat, closeCount (runCalls s calls) a ≤ 1 := by
  induction calls with
  | nil => intro s _ _ _ _ h; exact h
  | cons call calls ih =>
    intro s hs hp hb hused hle
    have hb1 : (applyCall s call).heap.length ≤ idSpace :=
      Nat.le_trans (runCalls_heap_le calls (applyCall s call)) hb
    have hu : releasesUnpooled s call = false ∧ releasesPooled (applyCall s call) calls = true := by
      simpa [releasesPooled] using hused
    refine ih (applyCall s call) (applyCall_sound hs call) (applyCall_separated hs hp call hb1)
      hb hu.2 ?_
    intro a
    cases call with
    | Create n u h ok =>
      simp only [applyCall]
      rw [CreateControl_closeCount]
      exact hle a
    | Destroyed id => exact hle a
    | Destroy control complete =>
      cases control with
      | none =>
        simp only [applyCall]
        rw [DestroyControl_null hs.started]
        unfold closeCount
        rw [count_append_other _ _ _ (fun h => Event.noConfusion h)]
        exact hle a
      | some b =>
        simp only [applyCall]
        cases hget : s.heap[b]? with
        | none => exact hle a
        | some c =>
          simp only
          rw [DestroyControl_closeCount s hs.started]
          by_cases hcond : complete = true ∧ c.address = a
          · rw [if_pos hcond]
            obtain ⟨hcomp, hca⟩ := hcond
            subst hcomp
            have hpooled : c ∈ pooled s := by
              have := hu.1
              simp only [releasesUnpooled, hget] at this
              simpa using this
            have hzero : closeCount s a = 0 := by
              unfold closeCount
              rw [List.count_eq_zero]
              rw [← hca]
              exact hp.notClosed c hpooled
            rw [hzero]
          · rw [if_neg hcond]
            exact hle a

/-- C10 (as amended): along every sequence of CreateControl, DestroyControl and
InformDestroyed calls from the empty pool during which at most 2^32 client
objects are constructed and every complete release is made on an instance that
is in active or in inactive at that time, CloseComplete is called on each
instance at most once. -/
theorem closeComplete_at_most_once (calls : List Call)
    (hb : (runCalls emptyPool calls).heap.length ≤ idSpace)
    (hused : releasesPooled emptyPool calls = true) (a : Nat) :
    closeCount (runCalls emptyPool calls) a ≤ 1 :=
  closeCount_le_one_of_calls calls emptyPool sound_emptyPool separated_emptyPool hb hused
    (fun _ => Nat.zero_le _) a

theorem closeComplete_at_most_once_witness :
    (runCalls emptyPool
      [Call.Create "a" "x" 1 true, Call.Destroy (some 0) false [], Call.Create "a" "y" 2 true,
       Call.Destroy (some 0) true [], Call.Destroyed 0]).heap.length ≤ idSpace ∧
    releasesPooled emptyPool
      [Call.Create "a" "x" 1 true, Call.Destroy (some 0) false [], Call.Create "a" "y" 2 true,
       Call.Destroy (some 0) true [], Call.Destroyed 0] = true ∧
    closeCount (runCalls emptyPool
      [Call.Create "a" "x" 1 true, Call.Destroy (some 0) false [], Call.Create "a" "y" 2 true,
       Call.Destroy (some 0) true [], Call.Destroyed 0]) 0 ≤ 1 :=
  ⟨by decide, by decide, closeComplete_at_most_once _ (by decide) (by decide) 0⟩

/-- C10 (as stated) fails: DestroyControl with complete = true called a second
time on the same control calls CloseComplete on it a second time. -/
theorem closeComplete_twice_on_repeated_release :
    closeCount (runCalls emptyPool
      [Call.Create "a" "x" 1 true, Call.Destroy (some 0) true [], Call.Destroy (some 0) true []]) 0 = 2 := by
  decide

/-! ## The wait loop of `MainShutdown` -/

theorem mem_foldl_InformDestroyed (ids : List Int) (s : CWebBrowser) (id : Int) :
    id ∈ (ids.foldl InformDestroyed s).m_browserClientsInDelete ↔
      id ∈ s.m_browserClientsInDelete ∧ id ∉ ids := by
  induction ids generalizing s with
  | nil => simp
  | cons x ids ih =>
    rw [List.foldl_cons, ih]
    simp only [InformDestroyed, mem_setErase, List.mem_cons, not_or]
    tauto

theorem mem_pumpMessageLoop (s : CWebBrowser) (ids : List Int) (id : Int) :
    id ∈ (pumpMessageLoop s ids).m_browserClientsInDelete ↔
      id ∈ s.m_browserClientsInDelete ∧ id ∉ ids := by
  unfold pumpMessageLoop
  rw [mem_foldl_InformDestroyed]

theorem mem_pumpedFrom (pump : Nat → List Int) (count : Nat) :
    ∀ (first : Nat) (s : CWebBrowser) (id : Int),
      id ∈ (pumpedFrom pump count first s).m_browserClientsInDelete ↔
        id ∈ s.m_browserClientsInDelete ∧
          ∀ j : Nat, first ≤ j → j < first + count → id ∉ pump j := by
  induction count with
  | zero =>
    intro first s id
    simp only [pumpedFrom, Nat.add_zero]
    constructor
    · intro h
      exact ⟨h, fun j h1 h2 => absurd h2 (Nat.not_lt.2 h1)⟩
    · exact fun h => h.1
  | succ count ih =>
    intro first s id
    simp only [pumpedFrom]
    rw [ih, mem_pumpMessageLoop]
    constructor
    · rintro ⟨⟨h1, h2⟩, h3⟩
      refine ⟨h1, ?_⟩
      intro j hj1 hj2
      by_cases hj : j = first
      · rw [hj]; exact h2
      · exact h3 j (by omega) (by omega)
    · rintro ⟨h1, h2⟩
      exact ⟨⟨h1, h2 first (Nat.le_refl _) (by omega)⟩,
        fun j hj1 hj2 => h2 j (by omega) (by omega)⟩

theorem pumpedFrom_succ (pump : Nat → List Int) (count : Nat) :
    ∀ (first : Nat) (s : CWebBrowser),
      pumpedFrom pump (count + 1) first s =
        pumpMessageLoop (pumpedFrom pump count first s) (pump (first + count)) := by
  induction count with
  | zero => intro first s; rfl
  | succ count ih =>
    intro first s
    have := ih (first + 1) (pumpMessageLoop s (pump first))
    simp only [pumpedFrom] at this ⊢
    rw [this]
    congr 2
    omega

/-- The wait loop makes `k` pumps, `k` at most the number of tries: before each
of them pending-delete was non-empty, and the loop ends before its tries are
used up only when pending-delete is empty. -/
theorem waitForDelete_spec (pump : Nat → List Int) (tries : Nat) :
    ∀ (done : Nat) (s : CWebBrowser), ∃ k : Nat, k ≤ tries ∧
      waitForDelete pump tries done s = (pumpedFrom pump k done s, done + k) ∧
      (∀ j : Nat, j < k → (pumpedFrom pump j done s).m_browserClientsInDelete ≠ []) ∧
      (k < tries → (pumpedFrom pump k done s).m_browserClientsInDelete = []) := by
  induction tries with
  | zero =>
    intro done s
    exact ⟨0, Nat.le_refl _, rfl, fun j hj => absurd hj (Nat.not_lt_zero j),
      fun h => absurd h (Nat.lt_irrefl 0)⟩
  | succ tries ih =>
    intro done s
    cases hp : s.m_browserClientsInDelete with
    | nil =>
      refine ⟨0, Nat.zero_le _, ?_, fun j hj => absurd hj (Nat.not_lt_zero j), fun _ => hp⟩
      simp [waitForDelete, hp, pumpedFrom]
    | cons x l =>
      obtain ⟨k, hk, heq, hbefore, hafter⟩ := ih (done + 1) (pumpMessageLoop s (pump done))
      refine ⟨k + 1, Nat.succ_le_succ hk, ?_, ?_, ?_⟩
      · simp only [waitForDelete, hp, List.isEmpty_cons, Bool.false_eq_true, if_false, heq,
          pumpedFrom]
        congr 1
        omega
      · intro j hj
        cases j with
        | zero => simp [pumpedFrom, hp]
        | succ j => exact hbefore j (by omega)
      · intro hlt
        exact hafter (by omega)

/-- `MainShutdown` in a started instance: the wait loop makes `k` pumps, one
more pump follows, and the last part of the function runs on the state reached
then. -/
theorem MainShutdown_exact (s : CWebBrowser) (pump : Nat → List Int)
    (hst : s.m_started = true) :
    ∃ k : Nat, k ≤ 1000 ∧
      waitForDelete pump 1000 0 (shutdownStart s) =
        (pumpedFrom pump k 0 (shutdownStart s), k) ∧
      (∀ j : Nat, j < k →
        (pumpedFrom pump j 0 (shutdownStart s)).m_browserClientsInDelete ≠ []) ∧
      (k < 1000 → (pumpedFrom pump k 0 (shutdownStart s)).m_browserClientsInDelete = []) ∧
      MainShutdown s pump =
        shutdownEnd (pumpMessageLoop (pumpedFrom pump k 0 (shutdownStart s)) (pump k)) ∧
      (MainShutdown s pump).events =
        (shutdownStart s).events ++ List.replicate (k + 1) Event.CefDoMessageLoopWork ++
          [if (MainShutdown s pump).m_browserClientsInDelete = [] then Event.CefShutdown
           else Event.LogFatal LogMessage.browsersNotDeleted] := by
  obtain ⟨k, hk, heq, hbefore, hafter⟩ := waitForDelete_spec pump 1000 0 (shutdownStart s)
  rw [Nat.zero_add] at heq
  obtain ⟨k2, _, hdone, hev⟩ := waitForDelete_events pump 1000 0 (shutdownStart s)
  rw [heq] at hdone hev
  have hk2 : k2 = k := by simp only at hdone; omega
  subst hk2
  simp only at hev
  have hmain : MainShutdown s pump =
      shutdownEnd (pumpMessageLoop (pumpedFrom pump k2 0 (shutdownStart s)) (pump k2)) := by
    rw [MainShutdown_eq s pump hst, heq]
  refine ⟨k2, hk, heq, hbefore, hafter, hmain, ?_⟩
  rw [hmain, (shutdownEnd_events _).1, (shutdownEnd_events _).2, pumpMessageLoop_events, hev,
    List.replicate_succ', List.append_assoc, List.append_assoc, List.append_assoc]
  simp only [List.append_assoc]

theorem count_pump_fatal (l : List Event)
    (hl : ∀ e ∈ l, e = Event.LogFatal LogMessage.clientsStillInUse) :
    l.count Event.CefDoMessageLoopWork = 0 := by
  rw [List.count_eq_zero]
  intro h
  exact Event.noConfusion (hl _ h)

/-- C14: in a started instance, for every pool state and every behaviour of the
message-loop pump, MainShutdown returns; its wait loop makes `k` pumps with `k`
at most 1000, pending-delete was non-empty before each of them, the loop stops
short of 1000 pumps only with pending-delete empty, and in all MainShutdown
pumps the message loop `k + 1` times: the loop's pumps and one last pump. -/
theorem drain_bounded (s : CWebBrowser) (pump : Nat → List Int) (hst : s.m_started = true) :
    ∃ k : Nat, k ≤ 1000 ∧
      waitForDelete pump 1000 0 (shutdownStart s) =
        (pumpedFrom pump k 0 (shutdownStart s), k) ∧
      (∀ j : Nat, j < k →
        (pumpedFrom pump j 0 (shutdownStart s)).m_browserClientsInDelete ≠ []) ∧
      (k < 1000 → (pumpedFrom pump k 0 (shutdownStart s)).m_browserClientsInDelete = []) ∧
      MainShutdown s pump =
        shutdownEnd (pumpMessageLoop (pumpedFrom pump k 0 (shutdownStart s)) (pump k)) ∧
      (emitted s (MainShutdown s pump)).count Event.CefDoMessageLoopWork = k + 1 := by
  obtain ⟨k, hk, heq, hbefore, hafter, hmain, hev⟩ := MainShutdown_exact s pump hst
  refine ⟨k, hk, heq, hbefore, hafter, hmain, ?_⟩
  obtain ⟨l, hl, hstart⟩ := shutdownStart_events s
  unfold emitted
  rw [hev, hstart, List.append_assoc, List.append_assoc, List.drop_left, List.count_append,
    List.count_append, count_pump_fatal l hl, List.count_replicate_self, List.count_singleton]
  split <;> simp

theorem drain_bounded_witness :
    stuckPool.m_started = true ∧
    ∃ k : Nat, k ≤ 1000 ∧
      (emitted stuckPool (MainShutdown stuckPool idlePump)).count Event.CefDoMessageLoopWork =
        k + 1 :=
  ⟨by decide,
    (drain_bounded stuckPool idlePump (by decide)).elim
      (fun k hk => ⟨k, hk.1, hk.2.2.2.2.2⟩)⟩

/-- C11: in a started instance whose active and inactive maps are empty, if
every id of pending-delete is reported destroyed during one of the first 1000
pumps, then after MainShutdown pending-delete is empty, no fatal line was
logged and CefShutdown was called. -/
theorem drain_converges (s : CWebBrowser) (pump : Nat → List Int) (hst : s.m_started = true)
    (hact : s.m_browserClients = []) (hina : s.m_browserClientsInactive = [])
    (hall : ∀ id ∈ s.m_browserClientsInDelete, ∃ k : Nat, k < 1000 ∧ id ∈ pump k) :
    (MainShutdown s pump).m_browserClientsInDelete = [] ∧
    (∀ msg : LogMessage, Event.LogFatal msg ∉ emitted s (MainShutdown s pump)) ∧
    Event.CefShutdown ∈ emitted s (MainShutdown s pump) := by
  have hstart : shutdownStart s = s := by
    simp [shutdownStart, hact, hina]
  obtain ⟨k, hk, _, _, hafter, hmain, hev⟩ := MainShutdown_exact s pump hst
  rw [hstart] at hafter hmain hev
  have hloop : (pumpedFrom pump k 0 s).m_browserClientsInDelete = [] := by
    by_cases hlt : k < 1000
    · exact hafter hlt
    · have hk1 : k = 1000 := by omega
      rw [List.eq_nil_iff_forall_not_mem]
      intro id hid
      obtain ⟨hmem, hnone⟩ := (mem_pumpedFrom pump k 0 s id).1 hid
      obtain ⟨j, hj, hjmem⟩ := hall id hmem
      exact hnone j (Nat.zero_le _) (by omega) hjmem
  have hfinal : (MainShutdown s pump).m_browserClientsInDelete = [] := by
    rw [hmain, (shutdownEnd_events _).1, List.eq_nil_iff_forall_not_mem]
    intro id hid
    have := ((mem_pumpMessageLoop _ _ id).1 hid).1
    rw [hloop] at this
    exact List.not_mem_nil _ this
  have hem : emitted s (MainShutdown s pump) =
      List.replicate (k + 1) Event.CefDoMessageLoopWork ++ [Event.CefShutdown] := by
    unfold emitted
    rw [hev, if_pos hfinal, List.append_assoc, List.drop_left]
  refine ⟨hfinal, ?_, ?_⟩
  · intro msg
    rw [hem]
    simp only [List.mem_append, List.mem_replicate, List.mem_singleton]
    rintro (h1 | h1)
    · exact Event.noConfusion h1.2
    · exact Event.noConfusion h1
  · rw [hem]
    simp

theorem drain_converges_witness :
    drainPool.m_started = true ∧ drainPool.m_browserClients = [] ∧
    drainPool.m_browserClientsInactive = [] ∧ drainPool.m_browserClientsInDelete = [0, 1] ∧
    (MainShutdown drainPool twoStepPump).m_browserClientsInDelete = [] ∧
    Event.CefShutdown ∈ emitted drainPool (MainShutdown drainPool twoStepPump) :=
  have hd : drainPool.m_browserClientsInDelete = [0, 1] := by decide
  have h := drain_converges drainPool twoStepPump (by decide) (by decide) (by decide)
    (by
      intro id hid
      rw [hd] at hid
      have h01 : id = 0 ∨ id = 1 := by simpa using hid
      rcases h01 with h0 | h1
      · exact ⟨0, by decide, by rw [h0]; decide⟩
      · exact ⟨3, by decide, by rw [h1]; decide⟩)
  ⟨by decide, by decide, by decide, hd, h.1, h.2.2⟩

/-! ## What the calls do to pending-delete -/

theorem CreateControl_delete (s : CWebBrowser) (n u : String) (h : Nat) (ok : Bool) :
    (CreateControl s n u h ok).2.m_browserClientsInDelete = s.m_browserClientsInDelete := by
  cases hst : s.m_started with
  | false => simp [CreateControl, hst]
  | true =>
    rcases CreateControl_cases s n with ⟨c, hf⟩ | ⟨hf, e, he⟩ | ⟨hf, he⟩
    · rw [CreateControl_reactivate hst hf]
    · rw [CreateControl_existing hst hf he]
    · cases ok with
      | false => rw [CreateControl_failed hst hf he]
      | true => rw [CreateControl_new hst hf he]

theorem DestroyControl_delete_park (s : CWebBrowser) (control : Option CWebBrowserClient)
    (destroyed : List Int) :
    (DestroyControl s control false destroyed).2.m_browserClientsInDelete =
      s.m_browserClientsInDelete := by
  cases hst : s.m_started with
  | false => simp [DestroyControl, hst]
  | true =>
    cases control with
    | none => rw [DestroyControl_null hst]
    | some c =>
      cases hf : mapFind c.uniqueId s.m_browserClients with
      | none => rw [DestroyControl_missing hst hf]
      | some d => rw [DestroyControl_park hst hf]

theorem DestroyControl_delete (s : CWebBrowser) (control : Option CWebBrowserClient)
    (destroyed : List Int) (x : Int) (hx : x ∈ s.m_browserClientsInDelete)
    (hnot : x ∉ destroyed) :
    x ∈ (DestroyControl s control true destroyed).2.m_browserClientsInDelete := by
  cases hst : s.m_started with
  | false =>
    have : DestroyControl s control true destroyed = (false, s) := by simp [DestroyControl, hst]
    rw [this]
    exact hx
  | true =>
    cases control with
    | none => rw [DestroyControl_null hst]; exact hx
    | some c =>
      rw [DestroyControl_complete hst]
      exact (mem_eraseAll _ _ _).2 ⟨mem_setInsert.2 (Or.inl hx), hnot⟩

/-- C15 (as amended): for every pool state, CreateControl leaves pending-delete
as it is, and so does DestroyControl with complete = false. DestroyControl with
complete = true removes an id from pending-delete only if the engine reports
that id destroyed during the pump that ends the call: with no such report the
set after the call is a superset of the set before, and on a started pool the
set after the call is the set before with the id of the released instance
inserted and the reported ids erased. InformDestroyed removes exactly the given
id from pending-delete, leaves the active and inactive maps as they are, and
changes nothing at all when the id is not a member. -/
theorem only_InformDestroyed_removes (s : CWebBrowser) :
    (∀ (n u : String) (h : Nat) (ok : Bool),
      (CreateControl s n u h ok).2.m_browserClientsInDelete = s.m_browserClientsInDelete) ∧
    (∀ (control : Option CWebBrowserClient) (destroyed : List Int),
      (DestroyControl s control false destroyed).2.m_browserClientsInDelete =
        s.m_browserClientsInDelete) ∧
    (∀ (control : Option CWebBrowserClient) (destroyed : List Int) (x : Int),
      x ∈ s.m_browserClientsInDelete → x ∉ destroyed →
        x ∈ (DestroyControl s control true destroyed).2.m_browserClientsInDelete) ∧
    (∀ control : Option CWebBrowserClient,
      s.m_browserClientsInDelete ⊆
        (DestroyControl s control true []).2.m_browserClientsInDelete) ∧
    (∀ (c : CWebBrowserClient) (destroyed : List Int), s.m_started = true →
      (DestroyControl s (some c) true destroyed).2.m_browserClientsInDelete =
        eraseAll destroyed (setInsert c.uniqueId s.m_browserClientsInDelete)) ∧
    (∀ id : Int,
      (∀ x : Int, x ∈ (InformDestroyed s id).m_browserClientsInDelete ↔
        x ∈ s.m_browserClientsInDelete ∧ x ≠ id) ∧
      (InformDestroyed s id).m_browserClients = s.m_browserClients ∧
      (InformDestroyed s id).m_browserClientsInactive = s.m_browserClientsInactive ∧
      (id ∈ s.m_browserClientsInDelete ∨ InformDestroyed s id = s)) := by
  refine ⟨CreateControl_delete s, DestroyControl_delete_park s, DestroyControl_delete s,
    fun control x hx => DestroyControl_delete s control [] x hx (List.not_mem_nil x), ?_, ?_⟩
  · intro c destroyed hst
    rw [DestroyControl_complete hst]
  intro id
  refine ⟨fun x => mem_setErase, rfl, rfl, ?_⟩
  by_cases hid : id ∈ s.m_browserClientsInDelete
  · exact Or.inl hid
  · right
    have : setErase id s.m_browserClientsInDelete = s.m_browserClientsInDelete := by
      unfold setErase
      rw [List.filter_eq_self]
      intro y hy
      have hne : y ≠ id := fun h => hid (h ▸ hy)
      simpa using hne
    unfold InformDestroyed
    rw [this]

theorem only_InformDestroyed_removes_witness :
    (0 : Int) ∈ onePendingPool.m_browserClientsInDelete ∧ (0 : Int) ∉ [(5 : Int)] ∧
    (0 : Int) ∈
      (DestroyControl onePendingPool (some secondClient) true [5]).2.m_browserClientsInDelete :=
  ⟨by decide, by decide,
    (only_InformDestroyed_removes onePendingPool).2.2.1 (some secondClient) [5] 0
      (by decide) (by decide)⟩

/-- C15 (as stated) fails: the id 0 waits in pending-delete; when the second
control is released completely and the engine reports id 0 destroyed during the
pump that ends that call, pending-delete after the call holds id 1 and no
longer id 0. -/
theorem complete_release_pump_removes_pending_id :
    onePendingPool.m_browserClientsInDelete = [0] ∧
    (DestroyControl onePendingPool (some secondClient) true [0]).2.m_browserClientsInDelete =
      [1] := by
  decide

/-! ## The ids handed out -/

theorem halfWrappedCalls_state :
    (runCalls emptyPool halfWrappedCalls).m_started = true ∧
    (runCalls emptyPool halfWrappedCalls).m_iUniqueClientId = -2147483648 ∧
    (runCalls emptyPool halfWrappedCalls).m_browserClients = [(0, firstClient)] ∧
    (runCalls emptyPool halfWrappedCalls).m_browserClientsInactive = [] ∧
    (runCalls emptyPool halfWrappedCalls).heap.length = 2147483648 ∧
    (runCalls emptyPool halfWrappedCalls).heap[0]? = some firstClient := by
  have hst : (runCalls emptyPool [Call.Create "a" "x" 0 true]).m_started = true := rfl
  have hc0 : (runCalls emptyPool [Call.Create "a" "x" 0 true]).m_iUniqueClientId = 1 := rfl
  have hlen : (runCalls emptyPool [Call.Create "a" "x" 0 true]).heap.length = 1 := rfl
  have hact : (runCalls emptyPool [Call.Create "a" "x" 0 true]).m_browserClients =
      [(0, firstClient)] := rfl
  have hina : (runCalls emptyPool [Call.Create "a" "x" 0 true]).m_browserClientsInactive = [] :=
    rfl
  have hdel : (runCalls emptyPool [Call.Create "a" "x" 0 true]).m_browserClientsInDelete = [] :=
    rfl
  have hget : (runCalls emptyPool [Call.Create "a" "x" 0 true]).heap[0]? = some firstClient :=
    rfl
  unfold halfWrappedCalls
  rw [runCalls_append]
  generalize runCalls emptyPool [Call.Create "a" "x" 0 true] = s0
    at hst hc0 hlen hact hina hdel hget ⊢
  have hch := churn_rounds 2147483647 s0 hst (by rw [hc0, hlen]; rfl)
    (by rw [hina]; rfl) (by rw [hact]; rfl)
    (by
      intro i hi
      rw [hact, hdel, hlen]
      refine ⟨?_, List.not_mem_nil _⟩
      have hne : ¬ (0 : Int) = wrapInt32 ((1 + i : Nat) : Int) := by
        unfold wrapInt32
        push_cast
        omega
      simp only [mapFind, if_neg hne])
  rw [hlen] at hch
  have hlen1 : (runCalls s0 (churnCalls 1 2147483647)).heap.length = 2147483648 := by
    rw [hch.length, hlen]
  exact ⟨hch.started, by rw [hch.counter, hlen1]; unfold wrapInt32; omega,
    hch.active.trans hact, hch.inactive.trans hina, hlen1,
    by rw [hch.older 0 (by omega), hget]⟩

/-- C12 (as stated) fails: after 2^31 constructions the next newly constructed
instance is given the id -2^31, which is smaller than the id 0 of the first
control, constructed before it and still active. -/
theorem uniqueId_drops_after_2_pow_31 :
    firstClient ∈ (runCalls emptyPool halfWrappedCalls).heap ∧
    (CreateControl (runCalls emptyPool halfWrappedCalls) "c" "y" 0 true).1 =
      some { address := 2147483648, uniqueId := -2147483648, name := "c", startURL := "y",
             handle := 0 } ∧
    ¬ firstClient.uniqueId < (-2147483648 : Int) := by
  obtain ⟨h1, h2, h3, h4, h5, h6⟩ := halfWrappedCalls_state
  refine ⟨List.getElem?_mem h6, ?_, by decide⟩
  generalize runCalls emptyPool halfWrappedCalls = t at h1 h2 h3 h4 h5 h6
  obtain ⟨st, cnt, A, I, P, H, E⟩ := t
  simp only at h1 h2 h3 h4 h5
  subst h1 h2 h3 h4
  simp [CreateControl, registerControl, mapFind, mapEmplace, firstClient, h5]

/-- C12 (as amended): in a pool state reached from the empty pool with fewer
than 2^32 client objects constructed, a CreateControl call either constructs
nothing and returns an instance constructed earlier (reactivated or already
active, with the id it was constructed with), or constructs exactly one new
instance whose unique id differs from the id of every instance constructed
before and is in none of active, inactive and pending-delete; as long as fewer
than 2^31 objects were constructed before, the new id is also strictly greater
than every id assigned before. -/
theorem new_uniqueId_fresh (calls : List Call) (s : CWebBrowser)
    (hreach : s = runCalls emptyPool calls) (hb : s.heap.length < idSpace)
    (n u : String) (h : Nat) (ok : Bool) :
    ((CreateControl s n u h ok).2.heap = s.heap ∧
      (CreateControl s n u h ok).2.m_iUniqueClientId = s.m_iUniqueClientId ∧
      ∀ c : CWebBrowserClient, (CreateControl s n u h ok).1 = some c → c ∈ s.heap) ∨
    ((CreateControl s n u h ok).2.heap = s.heap ++ [newClient s n u h] ∧
      (∀ c : CWebBrowserClient, (CreateControl s n u h ok).1 = some c → c = newClient s n u h) ∧
      (∀ d ∈ s.heap, d.uniqueId ≠ (newClient s n u h).uniqueId) ∧
      (s.heap.length < 2147483648 → ∀ d ∈ s.heap, d.uniqueId < (newClient s n u h).uniqueId) ∧
      (newClient s n u h).uniqueId ∉ s.m_browserClients.map Prod.fst ∧
      (newClient s n u h).uniqueId ∉ s.m_browserClientsInactive.map (fun e => e.2.uniqueId) ∧
      (newClient s n u h).uniqueId ∉ s.m_browserClientsInDelete) := by
  have hs : Sound s := hreach ▸ runCalls_sound calls sound_emptyPool
  rcases CreateControl_cases s n with ⟨c, hf⟩ | ⟨hf, e, he⟩ | ⟨hf, he⟩
  · left
    rw [CreateControl_reactivate hs.started hf]
    refine ⟨rfl, rfl, ?_⟩
    intro d hd
    have : c = d := Option.some.inj hd
    rw [← this]
    exact (hs.inactiveKey _ (mapFind_some_mem hf)).2
  · left
    rw [CreateControl_existing hs.started hf he]
    refine ⟨rfl, rfl, ?_⟩
    intro d hd
    have : e.2 = d := Option.some.inj hd
    rw [← this]
    exact (hs.activeKey e (List.mem_of_find?_eq_some he)).2
  · right
    have hfresh : ∀ d ∈ s.heap, d.uniqueId ≠ (newClient s n u h).uniqueId :=
      fun d hd => fresh_id_not_in_heap hs hb hd
    have hheap : (CreateControl s n u h ok).2.heap = s.heap ++ [newClient s n u h] ∧
        ∀ c : CWebBrowserClient, (CreateControl s n u h ok).1 = some c →
          c = newClient s n u h := by
      cases ok with
      | false =>
        rw [CreateControl_failed hs.started hf he]
        exact ⟨rfl, fun c hc => Option.noConfusion hc⟩
      | true =>
        rw [CreateControl_new hs.started hf he]
        exact ⟨rfl, fun c hc => (Option.some.inj hc).symm⟩
    refine ⟨hheap.1, hheap.2, hfresh, ?_, ?_, ?_, ?_⟩
    · intro hlt d hd
      obtain ⟨_, hu, hda⟩ := hs.mem_heap hd
      have hc : (newClient s n u h).uniqueId = wrapInt32 s.heap.length := hs.counter
      rw [hu, hc]
      unfold wrapInt32
      omega
    · intro hmem
      obtain ⟨a, ha, hka⟩ := List.mem_map.1 hmem
      have := hs.activeKey a ha
      exact hfresh a.2 this.2 (this.1 ▸ hka)
    · intro hmem
      obtain ⟨i, hi, hki⟩ := List.mem_map.1 hmem
      exact hfresh i.2 (hs.inactiveKey i hi).2 hki
    · intro hmem
      obtain ⟨d, hd, hdid⟩ := hs.deleteIds _ hmem
      exact hfresh d hd hdid

theorem new_uniqueId_fresh_witness :
    parkedPool.heap.length < idSpace ∧
    (CreateControl parkedPool "b" "y" 2 true).2.heap =
      parkedPool.heap ++ [newClient parkedPool "b" "y" 2] ∧
    (∀ d ∈ parkedPool.heap, d.uniqueId < (newClient parkedPool "b" "y" 2).uniqueId) :=
  (new_uniqueId_fresh _ parkedPool rfl (by decide) "b" "y" 2 true).elim
    (fun hl => absurd hl.2.1 (by decide))
    (fun hr => ⟨by decide, hr.1, hr.2.2.2.1 (by decide)⟩)

/-! ## The exception report -/

theorem append_join_cons (text line : String) (lines : List String) :
    text ++ String.join (line :: lines) = (text ++ line) ++ String.join lines := by
  apply String.ext
  simp [String.data_join, List.append_assoc]

theorem appendFrames_eq (localized : Nat → String)
    (format : String → List FormatArg → String) (frames : List StackFrame) (rounds : Nat) :
    ∀ (i : Nat) (text : String), i + rounds ≤ frames.length →
      appendFrames localized format frames rounds i text =
        some (text ++ String.join
          (((frames.drop i).take rounds).map (frameLine localized format))) := by
  induction rounds with
  | zero =>
    intro i text _
    have : String.join ([] : List String) = "" := rfl
    simp [appendFrames, this]
  | succ rounds ih =>
    intro i text hle
    have hi : i < frames.length := by omega
    have hdrop : frames.drop i = frames[i] :: frames.drop (i + 1) := List.drop_eq_getElem_cons hi
    simp only [appendFrames, List.getElem?_eq_getElem hi]
    rw [ih (i + 1) _ (by omega), hdrop, List.take_succ_cons, List.map_cons, append_join_cons]

/-- C13 (as amended): for every exception message whose frame list has fewer
than 2^31 entries, the text built by ReportJSException is the fixed prefix
(intro, message, source-line and resource sections, stack header) followed by
the frame lines of the input frames, one per frame and in input order; with no
frame the text is the prefix alone. For a frame list of any length no frame
outside of the list is read. -/
theorem report_shape (localized : Nat → String) (format : String → List FormatArg → String)
    (message : ExceptionMessage) :
    (ReportJSException localized format message).isSome = true ∧
    (message.frames.length < 2147483648 →
      ReportJSException localized format message =
        some (localized 30043,
          reportPrefix localized format message ++
            String.join (message.frames.map (frameLine localized format)))) ∧
    (message.frames = [] →
      ReportJSException localized format message =
        some (localized 30043, reportPrefix localized format message)) := by
  have hle : 0 + (wrapInt32 message.frames.length).toNat ≤ message.frames.length := by
    unfold wrapInt32
    omega
  have hrun := appendFrames_eq localized format message.frames
    (wrapInt32 message.frames.length).toNat 0 (reportPrefix localized format message) hle
  have hsmall : message.frames.length < 2147483648 →
      ReportJSException localized format message =
        some (localized 30043,
          reportPrefix localized format message ++
            String.join (message.frames.map (frameLine localized format))) := by
    intro hlt
    have hn : (wrapInt32 message.frames.length).toNat = message.frames.length := by
      unfold wrapInt32
      omega
    unfold ReportJSException
    rw [hrun, hn, List.drop_zero, List.take_length]
    rfl
  refine ⟨?_, hsmall, ?_⟩
  · unfold ReportJSException
    rw [hrun]
    rfl
  · intro hnil
    rw [hsmall (by rw [hnil]; decide), hnil]
    have : String.join ([] : List String) = "" := rfl
    simp [this]

theorem report_shape_witness :
    shortStack.frames.length < 2147483648 ∧
    ReportJSException plainStrings plainFormat shortStack =
      some (plainStrings 30043,
        reportPrefix plainStrings plainFormat shortStack ++
          String.join (shortStack.frames.map (frameLine plainStrings plainFormat))) :=
  ⟨by decide, (report_shape plainStrings plainFormat shortStack).2.1 (by decide)⟩

theorem length_join_replicate (n : Nat) :
    (String.join (List.replicate n "x")).length = n := by
  induction n with
  | zero => rfl
  | succ n ih =>
    have h := append_join_cons "" "x" (List.replicate n "x")
    rw [List.replicate_succ]
    have h2 : String.join ("x" :: List.replicate n "x") =
        "x" ++ String.join (List.replicate n "x") := by
      have e1 : "" ++ String.join ("x" :: List.replicate n "x") =
          String.join ("x" :: List.replicate n "x") := String.empty_append _
      have e2 : ("" : String) ++ "x" = "x" := String.empty_append _
      rw [e1, e2] at h
      exact h
    rw [h2, String.length_append, ih]
    have : ("x" : String).length = 1 := rfl
    omega

/-- C13 (as stated) fails: for a list of 2^31 frames the frame count converted
to `int` is negative, the loop body never runs and the text is the prefix
alone, without any of the 2^31 frame lines. -/
theorem report_of_deep_stack_has_no_frame_line :
    deepStack.frames.length = 2147483648 ∧
    ReportJSException plainStrings plainFormat deepStack =
      some (plainStrings 30043, reportPrefix plainStrings plainFormat deepStack) ∧
    reportPrefix plainStrings plainFormat deepStack ≠
      reportPrefix plainStrings plainFormat deepStack ++
        String.join (deepStack.frames.map (frameLine plainStrings plainFormat)) := by
  have hlen : deepStack.frames.length = 2147483648 := List.length_replicate _ _
  have hrounds : (wrapInt32 deepStack.frames.length).toNat = 0 := by
    rw [hlen]
    unfold wrapInt32
    omega
  refine ⟨hlen, ?_, ?_⟩
  · unfold ReportJSException
    rw [hrounds]
    rfl
  · intro heq
    have hmap : deepStack.frames.map (frameLine plainStrings plainFormat) =
        List.replicate 2147483648 "x" := List.map_replicate
    have hl := congrArg String.length heq
    rw [String.length_append, hmap, length_join_replicate] at hl
    omega

/-! ## The cookie visitor -/

theorem if_ne_empty_iff (filter field : String) :
    (if filter ≠ "" then decide (filter = field) else true) = true ↔
      filterAccepts filter field := by
  unfold filterAccepts
  by_cases h : filter = ""
  · simp [h]
  · simp [h]

theorem selects_iff (v : CCookieVisitor) (cookie : CefCookie) :
    v.selects cookie = true ↔
      (v.m_delete = true ∧ filterAccepts v.m_deleteName cookie.name ∧
        filterAccepts v.m_deleteDomain cookie.domain ∧
        filterAccepts v.m_deleteContent cookie.value) := by
  unfold CCookieVisitor.selects
  rw [Bool.and_eq_true, Bool.and_eq_true, Bool.and_eq_true, if_ne_empty_iff, if_ne_empty_iff,
    if_ne_empty_iff]
  tauto

theorem Visit_delete_iff (v : CCookieVisitor) (items : List CefCookie) (cookie : CefCookie) :
    (v.Visit items cookie).deleteCookie = true ↔
      (v.m_delete = true ∧ filterAccepts v.m_deleteName cookie.name ∧
        filterAccepts v.m_deleteDomain cookie.domain ∧
        filterAccepts v.m_deleteContent cookie.value) := by
  rw [← selects_iff]
  unfold CCookieVisitor.Visit
  by_cases h : v.selects cookie = true
  · rw [if_pos h]
    simp [h]
  · rw [if_neg h]
    simp [h]

theorem Visit_items (v : CCookieVisitor) (items : List CefCookie) (cookie : CefCookie) :
    (v.Visit items cookie).result = true ∧
    (v.Visit items cookie).items =
      if (v.Visit items cookie).deleteCookie = true then items else items ++ [cookie] := by
  unfold CCookieVisitor.Visit
  by_cases h : v.selects cookie = true
  · rw [if_pos h]
    simp
  · rw [if_neg h]
    simp

theorem visitAll_no_target (items cookies : List CefCookie) :
    visitAll (CCookieVisitor.ofCookie none) items cookies =
      (List.replicate cookies.length false, items ++ cookies) := by
  induction cookies generalizing items with
  | nil => simp [visitAll]
  | cons cookie rest ih =>
    have hv : (CCookieVisitor.ofCookie none).Visit items cookie =
        { result := true, deleteCookie := false, items := items ++ [cookie] } := by
      simp [CCookieVisitor.Visit, CCookieVisitor.selects, CCookieVisitor.ofCookie]
    simp only [visitAll, hv, if_true, ih, List.length_cons, List.replicate_succ,
      List.append_assoc, List.singleton_append]

/-- C16: for every visited cookie, Visit returns true, and it sets deleteCookie
to true, leaving the item list alone, exactly when the visitor is in delete
mode and each of its three filters (name, domain, value) is empty or equal to
the cookie's field; otherwise it sets deleteCookie to false and appends the
cookie to the item list. A visitor built from a selected cookie therefore
deletes exactly the cookies that agree with the selected one on its non-empty
name, domain and value, whatever their path; a visitor in delete mode with all
filters empty deletes every cookie; and a visitor built without a delete target
deletes none and lists all cookies in visit order. -/
theorem visit_delete_predicate (v : CCookieVisitor) (items : List CefCookie)
    (cookie selected : CefCookie) (cookies : List CefCookie) :
    (v.Visit items cookie).result = true ∧
    ((v.Visit items cookie).deleteCookie = true ↔
      (v.m_delete = true ∧ filterAccepts v.m_deleteName cookie.name ∧
        filterAccepts v.m_deleteDomain cookie.domain ∧
        filterAccepts v.m_deleteContent cookie.value)) ∧
    (v.Visit items cookie).items =
      (if (v.Visit items cookie).deleteCookie = true then items else items ++ [cookie]) ∧
    (((CCookieVisitor.ofCookie (some selected)).Visit items cookie).deleteCookie = true ↔
      (filterAccepts selected.name cookie.name ∧ filterAccepts selected.domain cookie.domain ∧
        filterAccepts selected.value cookie.value)) ∧
    (∀ path : String,
      (v.Visit items { cookie with path := path }).deleteCookie =
        (v.Visit items cookie).deleteCookie) ∧
    ((CCookieVisitor.ofDomain "").Visit items cookie).deleteCookie = true ∧
    visitAll (CCookieVisitor.ofCookie none) items cookies =
      (List.replicate cookies.length false, items ++ cookies) := by
  refine ⟨(Visit_items v items cookie).1, Visit_delete_iff v items cookie,
    (Visit_items v items cookie).2, ?_, ?_, ?_, visitAll_no_target items cookies⟩
  · rw [Visit_delete_iff]
    simp [CCookieVisitor.ofCookie]
  · intro path
    rw [Bool.eq_iff_iff, Visit_delete_iff, Visit_delete_iff]
  · rw [Visit_delete_iff]
    simp [CCookieVisitor.ofDomain, filterAccepts]

end WebBrowser
